import Mathlib

/-!
# Tree-PLRU cache model (`TLB/src/ariane/TreePLRU.cpp`)

Shallow embedding of the set-associative cache simulator: address bit fields,
`Cell`, `Block` (one set: ways + tree-PLRU state + encoding tables) and `Cache`.

Machine integers are natural numbers with explicit truncation:
`uint32_t` values are reduced modulo `2^32`, `~x` on `uint64_t` is `2^64 - 1 - x`.
The preprocessor constant `NWAY` is a parameter `nway` of every operation, so that
both hard-coded encodings (4 and 8 ways) can be discussed; the source is compiled
with `NWAY = 8`.
-/

namespace TreePLRU

/-! ## Constants -/

def NWAY : Nat := 8
def NLINE : Nat := 256
def HIT : Nat := 0
def MISS : Nat := 1

/-! ## Machine arithmetic -/

/-- Truncation of a value stored into a `uint32_t`. -/
def u32 (x : Nat) : Nat := x % 2 ^ 32

/-- Bitwise complement `~x` of a `uint64_t`. -/
def not64 (x : Nat) : Nat := 2 ^ 64 - 1 - x % 2 ^ 64

/-! ## Addresses -/

/-- The bit fields of `struct AddressField` (2 + 4 + 8 + 50 bits, least significant first). -/
structure AddressField where
  wd_idx : Nat
  offset : Nat
  index : Nat
  tag : Nat
deriving DecidableEq, Repr

/-- Reading a pointer value through `union Address`. -/
def Address.fields (p : Nat) : AddressField :=
  { wd_idx := p % 4
    offset := p / 4 % 16
    index := p / 64 % 256
    tag := p / 16384 % 2 ^ 50 }

/-! ## Cells (ways) -/

structure Cell where
  v : Bool
  tag : Nat
deriving DecidableEq, Repr

/-- Constructor `Cell() : v(false), tag(0)`. -/
def Cell.init : Cell := { v := false, tag := 0 }

def Cell.isHit (c : Cell) (tag : Nat) : Bool :=
  c.v && (tag == c.tag)

def Cell.fetch (_c : Cell) (address : Nat) : Cell :=
  let addr := Address.fields address
  let addr := { addr with offset := 0 }
  let addr := { addr with wd_idx := 0 }
  { v := true, tag := addr.tag }

/-! ## Blocks (sets) -/

/-- One set: the ways and the tree-PLRU state.  The three table pointers of the
source are fixed by the constructor from `NWAY` and never written again; they are
the functions `Block.mask`, `Block.value`, `Block.next_value` of `nway`. -/
structure Block where
  cell : List Cell
  state : Nat
deriving DecidableEq, Repr

/-- Table `mask` chosen by the constructor's `switch (NWAY)`; no table in the default case. -/
def Block.mask : Nat → List Nat
  | 4 => [0b110, 0b110, 0b101, 0b101]
  | 8 => [0b1101000, 0b1101000, 0b1100100, 0b1100100, 0b1010010, 0b1010010, 0b1010001,
          0b1010001]
  | _ => []

/-- Table `value` chosen by the constructor's `switch (NWAY)`. -/
def Block.value : Nat → List Nat
  | 4 => [0b000, 0b010, 0b100, 0b101]
  | 8 => [0b0000000, 0b0001000, 0b0100000, 0b0100100, 0b1000000, 0b1000010, 0b1010000,
          0b1010001]
  | _ => []

/-- Table `next_value` chosen by the constructor's `switch (NWAY)`. -/
def Block.next_value : Nat → List Nat
  | 4 => [0b110, 0b100, 0b001, 0b000]
  | 8 => [0b1101000, 0b1100000, 0b1000100, 0b1000000, 0b0010010, 0b0010000,
          0b0000001, 0b0000000]
  | _ => []

/-- Entry `mask[i]`.  For `NWAY` 4 or 8 and `i < NWAY` the read is inside the table; the
default 0 stands for any other read, which the source leaves undefined. -/
def Block.maskAt (nway i : Nat) : Nat := (Block.mask nway).getD i 0

/-- Entry `value[i]`. -/
def Block.valueAt (nway i : Nat) : Nat := (Block.value nway).getD i 0

/-- Entry `next_value[i]`. -/
def Block.nextValueAt (nway i : Nat) : Nat := (Block.next_value nway).getD i 0

/-- Constructor `Block() : state(0)` with `NWAY` default-constructed cells. -/
def Block.new (nway : Nat) : Block :=
  { cell := List.replicate nway Cell.init, state := 0 }

/-- Entry `cell[i]`. -/
def Block.cellAt (b : Block) (i : Nat) : Cell := b.cell.getD i Cell.init

/-- The loop of `getByTag`: the first way `i < NWAY` with `cell[i].isHit(tag)`, or `NULL`. -/
def Block.getByTag (nway : Nat) (b : Block) (tag : Nat) : Option Nat :=
  (List.range nway).find? (fun i => (b.cellAt i).isHit tag)

/-- The loop of `setLRU`: the first way `i < NWAY` with `(state & mask[i]) == value[i]`. -/
def Block.findLRU (nway : Nat) (state : Nat) : Option Nat :=
  (List.range nway).find? (fun i => (state &&& Block.maskAt nway i) == Block.valueAt nway i)

/-- The statement `state ^= mask[i]`. -/
def Block.missUpdate (nway : Nat) (state i : Nat) : Nat :=
  u32 (state ^^^ Block.maskAt nway i)

/-- The statements `state &= ~mask[way]; state |= next_value[way]`. -/
def Block.hitUpdate (nway : Nat) (state way : Nat) : Nat :=
  let state := u32 (state &&& not64 (Block.maskAt nway way))
  u32 (state ||| Block.nextValueAt nway way)

/-- Function `setLRU`; returns the local `way` (printed by the source) and the new block. -/
def Block.setLRU (nway : Nat) (b : Block) (address : Nat) : Nat × Block :=
  let r : Nat × Nat :=
    match Block.findLRU nway b.state with
    | some i => (i, Block.missUpdate nway b.state i)
    | none => (0, b.state)
  (r.1, { cell := b.cell.set r.1 ((b.cellAt r.1).fetch address), state := r.2 })

/-- Function `get`: non-`NULL` exactly when `getByTag` finds the address's tag; carries `*pway`. -/
def Block.get (nway : Nat) (b : Block) (address : Nat) : Option Nat :=
  b.getByTag nway (Address.fields address).tag

/-- Result of `Block::set`: the returned `HIT`/`MISS`, the way it reports, and the block after. -/
structure Access where
  ret : Nat
  way : Nat
  block : Block
deriving DecidableEq, Repr

def Block.set (nway : Nat) (b : Block) (address : Nat) : Access :=
  match b.get nway address with
  | some way =>
    { ret := HIT, way := way, block := { b with state := Block.hitUpdate nway b.state way } }
  | none =>
    let r := b.setLRU nway address
    { ret := MISS, way := r.1, block := r.2 }

/-- Consecutive calls of `Block::set` on one set, collecting `(ret, way)` of each call. -/
def Block.run (nway : Nat) : Block → List Nat → List (Nat × Nat) × Block
  | b, [] => ([], b)
  | b, a :: as =>
    let r := b.set nway a
    let rest := Block.run nway r.block as
    ((r.ret, r.way) :: rest.1, rest.2)

/-! ## Cache -/

/-- The `NLINE` sets and the two `uint32_t` counters `count[HIT]`, `count[MISS]`. -/
structure Cache where
  block : List Block
  count : List Nat
deriving DecidableEq, Repr

/-- Constructor `Cache()`. -/
def Cache.new : Cache :=
  { block := List.replicate NLINE (Block.new NWAY), count := [0, 0] }

def Cache.access (c : Cache) (address : Nat) : Cache :=
  let addr := Address.fields address
  let b := c.block.getD addr.index (Block.new NWAY)
  let r := b.set NWAY address
  { block := c.block.set addr.index r.block
    count := c.count.set r.ret (u32 (c.count.getD r.ret 0 + 1)) }

/-- A sequence of calls of `Cache::access`. -/
def Cache.accessAll (c : Cache) (addresses : List Nat) : Cache :=
  addresses.foldl Cache.access c

/-! ## Diagnostics of the constructor -/

/-- What `Block::Block` writes to `std::cout`: in the `default` case of `switch (NWAY)` the
message `Error definition NWAY = ` followed by `NWAY` (here: the number printed), nothing in
the cases 4 and 8.  No case throws or exits: the constructor always returns (`Block.new`),
and in the `default` case the three table pointers are left as they were. -/
def Block.newMessage : Nat → Option Nat
  | 4 => none
  | 8 => none
  | n => some n

/-! ## Auxiliary measure for the recency argument -/

/-- Auxiliary, not part of the source: the number of state bits on the path of way `w`
(the bits of `mask[w]` in the 8-way table) whose value in state `s` is the one that selects
`w`, i.e. agrees with `value[w]`.  Way `w` is the one found by `setLRU` exactly when all
three path bits agree. -/
def Block.toward (s w : Nat) : Nat :=
  (List.range 7).countP (fun i =>
    (Block.maskAt 8 w).testBit i && (s.testBit i == (Block.valueAt 8 w).testBit i))

/-! ## Auxiliary iteration of the miss path -/

/-- Auxiliary, not a function of the source: the state part of `setLRU` (8 ways) iterated
`k` times from state `s`; returns the ways chosen, in order, and the final state. -/
def Block.missChain : Nat → Nat → List Nat × Nat
  | 0, s => ([], s)
  | k + 1, s =>
    let r : Nat × Nat :=
      match Block.findLRU 8 s with
      | some i => (i, Block.missUpdate 8 s i)
      | none => (0, s)
    let rest := Block.missChain k r.2
    (r.1 :: rest.1, rest.2)

/-! ## Encoding tables -/

theorem findLRU_spec4 : ∀ s, s < 8 → ∃ w, Block.findLRU 4 s = some w ∧ w < 4 ∧
    s &&& Block.maskAt 4 w = Block.valueAt 4 w ∧
    ∀ y, y < 4 → s &&& Block.maskAt 4 y = Block.valueAt 4 y → y = w := by
  decide

set_option maxRecDepth 100000 in
theorem findLRU_spec8 : ∀ s, s < 128 → ∃ w, Block.findLRU 8 s = some w ∧ w < 8 ∧
    s &&& Block.maskAt 8 w = Block.valueAt 8 w ∧
    ∀ y, y < 8 → s &&& Block.maskAt 8 y = Block.valueAt 8 y → y = w := by
  decide

theorem maskAt8_lt (i : Nat) : Block.maskAt 8 i < 128 := by
  by_cases h : i < 8
  · interval_cases i <;> decide
  · have hl : (Block.mask 8).length ≤ i := by
      simp only [Block.mask, List.length_cons, List.length_nil]; omega
    unfold Block.maskAt
    rw [List.getD_eq_default _ _ hl]
    decide

theorem nextValueAt8_lt (i : Nat) : Block.nextValueAt 8 i < 128 := by
  by_cases h : i < 8
  · interval_cases i <;> decide
  · have hl : (Block.next_value 8).length ≤ i := by
      simp only [Block.next_value, List.length_cons, List.length_nil]; omega
    unfold Block.nextValueAt
    rw [List.getD_eq_default _ _ hl]
    decide

/-- Only the low seven state bits are inspected by the match test. -/
theorem and_maskAt8_mod (s i : Nat) :
    s &&& Block.maskAt 8 i = (s % 128) &&& Block.maskAt 8 i := by
  have hm : Block.maskAt 8 i % 2 ^ 7 = Block.maskAt 8 i := Nat.mod_eq_of_lt (maskAt8_lt i)
  have h1 : (s % 128) &&& Block.maskAt 8 i = (s &&& (2 ^ 7 - 1)) &&& Block.maskAt 8 i := by
    rw [Nat.and_pow_two_sub_one_eq_mod]
  rw [h1, Nat.and_assoc, Nat.and_comm (2 ^ 7 - 1), Nat.and_pow_two_sub_one_eq_mod, hm]

theorem findLRU8_mod (s : Nat) : Block.findLRU 8 s = Block.findLRU 8 (s % 128) := by
  unfold Block.findLRU
  congr 1
  funext i
  rw [and_maskAt8_mod]

theorem findLRU8_total (s : Nat) : ∃ w, Block.findLRU 8 s = some w ∧ w < 8 ∧
    s &&& Block.maskAt 8 w = Block.valueAt 8 w ∧
    ∀ y, y < 8 → s &&& Block.maskAt 8 y = Block.valueAt 8 y → y = w := by
  obtain ⟨w, hf, hw, hm, hu⟩ := findLRU_spec8 (s % 128) (Nat.mod_lt _ (by decide))
  refine ⟨w, ?_, hw, ?_, ?_⟩
  · rw [findLRU8_mod, hf]
  · rw [and_maskAt8_mod, hm]
  · intro y hy hy2
    exact hu y hy (by rw [← and_maskAt8_mod, hy2])

theorem tables_next_value : ∀ nway, nway = 4 ∨ nway = 8 → ∀ w, w < nway →
    Block.nextValueAt nway w = Block.maskAt nway w ^^^ Block.valueAt nway w ∧
    Block.maskAt nway w < 2 ^ (nway - 1) ∧ Block.valueAt nway w < 2 ^ (nway - 1) ∧
    Block.nextValueAt nway w < 2 ^ (nway - 1) := by
  intro nway hn w hw
  rcases hn with rfl | rfl <;> interval_cases w <;> decide

/-! ## Bit-level facts about the two state updates -/

theorem u32_of_lt {x : Nat} (h : x < 2 ^ 32) : u32 x = x := Nat.mod_eq_of_lt h

theorem testBit_not64 (m i : Nat) (hm : m < 2 ^ 64) :
    (not64 m).testBit i = (decide (i < 64) && !m.testBit i) := by
  have h : not64 m = 2 ^ 64 - (m + 1) := by
    unfold not64
    rw [Nat.mod_eq_of_lt hm]
    omega
  rw [h, Nat.testBit_two_pow_sub_succ hm]

theorem testBit_of_lt_of_le {x i n : Nat} (hx : x < 2 ^ n) (hi : n ≤ i) : x.testBit i = false :=
  Nat.testBit_lt_two_pow (lt_of_lt_of_le hx (Nat.pow_le_pow_right (by decide) hi))

/-- Flipping the masked bits of a state equals clearing them and writing their complement. -/
theorem xor_eq_clear_or (s m : Nat) (hs : s < 2 ^ 32) (hm : m < 2 ^ 32) :
    s ^^^ m = (s &&& not64 m) ||| (m ^^^ (s &&& m)) := by
  have hm64 : m < 2 ^ 64 := lt_trans hm (by decide)
  apply Nat.eq_of_testBit_eq
  intro i
  rw [Nat.testBit_xor, Nat.testBit_or, Nat.testBit_and, Nat.testBit_xor, Nat.testBit_and,
    testBit_not64 m i hm64]
  by_cases hi : i < 64
  · simp only [hi, decide_True, Bool.true_and]
    cases s.testBit i <;> cases m.testBit i <;> rfl
  · have h1 : s.testBit i = false := testBit_of_lt_of_le hs (by omega)
    have h2 : m.testBit i = false := testBit_of_lt_of_le hm (by omega)
    simp [h1, h2]

/-- The hit update applied twice is the hit update applied once. -/
theorem clear_or_idem (s nm nv : Nat) :
    (((s &&& nm) ||| nv) &&& nm) ||| nv = (s &&& nm) ||| nv := by
  apply Nat.eq_of_testBit_eq
  intro i
  simp only [Nat.testBit_or, Nat.testBit_and]
  cases s.testBit i <;> cases nm.testBit i <;> cases nv.testBit i <;> rfl

theorem missUpdate_eq (nway s w : Nat) (hs : s < 2 ^ 32) (hm : Block.maskAt nway w < 2 ^ 32) :
    Block.missUpdate nway s w = s ^^^ Block.maskAt nway w := by
  unfold Block.missUpdate
  exact u32_of_lt (Nat.xor_lt_two_pow hs hm)

theorem and_not64_lt (s m : Nat) (hs : s < 2 ^ 32) : s &&& not64 m < 2 ^ 32 :=
  lt_of_le_of_lt Nat.and_le_left hs

theorem hitUpdate_eq (nway s w : Nat) (hs : s < 2 ^ 32)
    (hnv : Block.nextValueAt nway w < 2 ^ 32) :
    Block.hitUpdate nway s w
      = (s &&& not64 (Block.maskAt nway w)) ||| Block.nextValueAt nway w := by
  unfold Block.hitUpdate
  simp only
  rw [u32_of_lt (and_not64_lt s _ hs), u32_of_lt (Nat.or_lt_two_pow (and_not64_lt s _ hs) hnv)]

theorem hitUpdate_lt (nway s w : Nat) : Block.hitUpdate nway s w < 2 ^ 32 :=
  Nat.mod_lt _ (by decide)

theorem hitUpdate_idem (nway s w : Nat) (hs : s < 2 ^ 32)
    (hnv : Block.nextValueAt nway w < 2 ^ 32) :
    Block.hitUpdate nway (Block.hitUpdate nway s w) w = Block.hitUpdate nway s w := by
  rw [hitUpdate_eq nway (Block.hitUpdate nway s w) w (hitUpdate_lt nway s w) hnv,
    hitUpdate_eq nway s w hs hnv, clear_or_idem]

theorem missUpdate8_lt (s w : Nat) (hs : s < 128) : Block.missUpdate 8 s w < 128 := by
  unfold Block.missUpdate u32
  have h : s ^^^ Block.maskAt 8 w < 2 ^ 7 := Nat.xor_lt_two_pow hs (maskAt8_lt w)
  rw [Nat.mod_eq_of_lt (lt_trans h (by decide))]
  exact h

theorem hitUpdate8_lt (s w : Nat) (hs : s < 128) : Block.hitUpdate 8 s w < 128 := by
  have hs32 : s < 2 ^ 32 := lt_trans hs (by decide)
  rw [hitUpdate_eq 8 s w hs32 (lt_trans (nextValueAt8_lt w) (by decide))]
  have h1 : s &&& not64 (Block.maskAt 8 w) < 2 ^ 7 := lt_of_le_of_lt Nat.and_le_left hs
  exact Nat.or_lt_two_pow h1 (nextValueAt8_lt w)

/-! ## Lookup and the two paths of `Block::set` -/

theorem isHit_iff (c : Cell) (t : Nat) : c.isHit t = true ↔ c.v = true ∧ c.tag = t := by
  unfold Cell.isHit
  simp only [Bool.and_eq_true, beq_iff_eq]
  constructor
  · rintro ⟨h1, h2⟩
    exact ⟨h1, h2.symm⟩
  · rintro ⟨h1, h2⟩
    exact ⟨h1, h2.symm⟩

theorem fetch_eq (c : Cell) (a : Nat) :
    c.fetch a = { v := true, tag := (Address.fields a).tag } := rfl

theorem getByTag_eq_none (nway : Nat) (b : Block) (t : Nat)
    (h : ∀ i, i < nway → ¬ ((b.cellAt i).v = true ∧ (b.cellAt i).tag = t)) :
    b.getByTag nway t = none := by
  unfold Block.getByTag
  rw [List.find?_range_eq_none]
  intro i hi
  have := h i hi
  rw [← isHit_iff] at this
  simpa using this

theorem getByTag_eq_some (nway : Nat) (b : Block) (t w : Nat) (hw : w < nway)
    (hv : (b.cellAt w).v = true) (ht : (b.cellAt w).tag = t)
    (hlow : ∀ j, j < w → ¬ ((b.cellAt j).v = true ∧ (b.cellAt j).tag = t)) :
    b.getByTag nway t = some w := by
  unfold Block.getByTag
  rw [List.find?_range_eq_some]
  refine ⟨(isHit_iff _ _).2 ⟨hv, ht⟩, List.mem_range.2 hw, ?_⟩
  intro j hj
  have := hlow j hj
  rw [← isHit_iff] at this
  simpa using this

theorem set_of_miss (nway : Nat) (b : Block) (a w : Nat)
    (hg : b.getByTag nway (Address.fields a).tag = none)
    (hf : Block.findLRU nway b.state = some w) :
    b.set nway a =
      { ret := MISS, way := w,
        block := { cell := b.cell.set w { v := true, tag := (Address.fields a).tag },
                   state := Block.missUpdate nway b.state w } } := by
  unfold Block.set Block.get
  rw [hg]
  simp only [Block.setLRU, hf, fetch_eq]

theorem set_of_hit (nway : Nat) (b : Block) (a w : Nat)
    (hg : b.getByTag nway (Address.fields a).tag = some w) :
    b.set nway a =
      { ret := HIT, way := w,
        block := { cell := b.cell, state := Block.hitUpdate nway b.state w } } := by
  unfold Block.set Block.get
  rw [hg]

theorem cellAt_set_self (cells : List Cell) (s w : Nat) (c : Cell) (hw : w < cells.length) :
    Block.cellAt { cell := cells.set w c, state := s } w = c := by
  simp [Block.cellAt, List.getElem?_set, hw]

theorem cellAt_set_ne (cells : List Cell) (s s2 w i : Nat) (c : Cell) (h : i ≠ w) :
    Block.cellAt { cell := cells.set w c, state := s } i
      = Block.cellAt { cell := cells, state := s2 } i := by
  simp [Block.cellAt, List.getElem?_set_ne (Ne.symm h)]

theorem set_ret_cases (nway : Nat) (b : Block) (a : Nat) :
    (b.set nway a).ret = HIT ∨ (b.set nway a).ret = MISS := by
  unfold Block.set
  cases b.get nway a <;> simp

theorem new8_getByTag (t : Nat) : (Block.new 8).getByTag 8 t = none := by
  apply getByTag_eq_none
  intro i hi
  interval_cases i <;> simp [Block.new, Block.cellAt, Cell.init]

/-- The first access to a fresh 8-way set, for any address. -/
theorem new8_set (a : Nat) :
    (Block.new 8).set 8 a =
      { ret := MISS, way := 0,
        block := { cell := { v := true, tag := (Address.fields a).tag } ::
                     List.replicate 7 Cell.init,
                   state := 0b1101000 } } := by
  rw [set_of_miss 8 (Block.new 8) a 0 (new8_getByTag _) (by decide)]
  rfl

/-- Hits on a way whose hit update leaves the state fixed change nothing at all. -/
theorem run_hits_fixed (b : Block) (t h : Nat) (hh : h < 8)
    (hv : (b.cellAt h).v = true) (ht : (b.cellAt h).tag = t)
    (hlow : ∀ j, j < h → ¬ ((b.cellAt j).v = true ∧ (b.cellAt j).tag = t))
    (hfix : Block.hitUpdate 8 b.state h = b.state) :
    ∀ as : List Nat, (∀ a, a ∈ as → (Address.fields a).tag = t) →
      Block.run 8 b as = (List.replicate as.length (HIT, h), b) := by
  intro as
  induction as with
  | nil => intro _; rfl
  | cons a as ih =>
    intro htag
    have hta : (Address.fields a).tag = t := htag a (List.mem_cons_self _ _)
    have hg : b.getByTag 8 (Address.fields a).tag = some h := by
      rw [hta]; exact getByTag_eq_some 8 b t h hh hv ht hlow
    have hset := set_of_hit 8 b a h hg
    rw [hfix] at hset
    have ih2 := ih (fun x hx => htag x (List.mem_cons_of_mem _ hx))
    simp only [Block.run, hset, ih2, List.length_cons, List.replicate_succ]

/-- The miss path on a set given by explicit ways and state. -/
theorem set_miss_explicit (cells cells2 : List Cell) (s a w s2 : Nat)
    (hg : ∀ i, i < 8 → ¬ ((Block.cellAt { cell := cells, state := s } i).v = true ∧
      (Block.cellAt { cell := cells, state := s } i).tag = (Address.fields a).tag))
    (hf : Block.findLRU 8 s = some w)
    (hs : Block.missUpdate 8 s w = s2)
    (hc : cells.set w { v := true, tag := (Address.fields a).tag } = cells2) :
    Block.set 8 { cell := cells, state := s } a =
      { ret := MISS, way := w, block := { cell := cells2, state := s2 } } := by
  rw [set_of_miss 8 _ a w (getByTag_eq_none 8 _ _ hg) hf]
  simp only [hs, hc]

theorem run_cons_eq (b b2 bf : Block) (a r w : Nat) (as : List Nat) (rs : List (Nat × Nat))
    (h1 : b.set 8 a = { ret := r, way := w, block := b2 })
    (h2 : Block.run 8 b2 as = (rs, bf)) :
    Block.run 8 b (a :: as) = ((r, w) :: rs, bf) := by
  simp only [Block.run, h1, h2]

/-- Eight accesses with pairwise distinct tags fill a fresh set in the way order
0, 4, 2, 6, 1, 5, 3, 7 and bring the state back to 0. -/
theorem fill8 (a1 a2 a3 a4 a5 a6 a7 a8 : Nat)
    (hd : ([a1, a2, a3, a4, a5, a6, a7, a8].map (fun a => (Address.fields a).tag)).Nodup) :
    Block.run 8 (Block.new 8) [a1, a2, a3, a4, a5, a6, a7, a8] =
      ([(MISS, 0), (MISS, 4), (MISS, 2), (MISS, 6), (MISS, 1), (MISS, 5), (MISS, 3), (MISS, 7)],
       { cell := [{ v := true, tag := (Address.fields a1).tag },
                  { v := true, tag := (Address.fields a5).tag },
                  { v := true, tag := (Address.fields a3).tag },
                  { v := true, tag := (Address.fields a7).tag },
                  { v := true, tag := (Address.fields a2).tag },
                  { v := true, tag := (Address.fields a6).tag },
                  { v := true, tag := (Address.fields a4).tag },
                  { v := true, tag := (Address.fields a8).tag }],
         state := 0 }) := by
  simp only [List.map_cons, List.map_nil, List.nodup_cons, List.mem_cons, List.mem_singleton,
    List.not_mem_nil, not_or, List.nodup_nil, or_false, and_true, not_false_eq_true] at hd
  obtain ⟨⟨h12, h13, h14, h15, h16, h17, h18⟩, ⟨h23, h24, h25, h26, h27, h28⟩,
    ⟨h34, h35, h36, h37, h38⟩, ⟨h45, h46, h47, h48⟩, ⟨h56, h57, h58⟩, ⟨h67, h68⟩, h78⟩ := hd
  refine run_cons_eq _ _ _ _ _ _ _ _ (set_miss_explicit _ _ 0 a1 0 104 ?_ (by decide) (by decide) rfl) ?_
  · intro i hi; interval_cases i <;> simp [Block.cellAt, Block.new, Cell.init]
  refine run_cons_eq _ _ _ _ _ _ _ _ (set_miss_explicit _ _ 104 a2 4 58 ?_ (by decide) (by decide) rfl) ?_
  · intro i hi; interval_cases i <;> simp [Block.cellAt, Cell.init, *]
  refine run_cons_eq _ _ _ _ _ _ _ _ (set_miss_explicit _ _ 58 a3 2 94 ?_ (by decide) (by decide) rfl) ?_
  · intro i hi; interval_cases i <;> simp [Block.cellAt, Cell.init, *]
  refine run_cons_eq _ _ _ _ _ _ _ _ (set_miss_explicit _ _ 94 a4 6 15 ?_ (by decide) (by decide) rfl) ?_
  · intro i hi; interval_cases i <;> simp [Block.cellAt, Cell.init, *]
  refine run_cons_eq _ _ _ _ _ _ _ _ (set_miss_explicit _ _ 15 a5 1 103 ?_ (by decide) (by decide) rfl) ?_
  · intro i hi; interval_cases i <;> simp [Block.cellAt, Cell.init, *]
  refine run_cons_eq _ _ _ _ _ _ _ _ (set_miss_explicit _ _ 103 a6 5 53 ?_ (by decide) (by decide) rfl) ?_
  · intro i hi; interval_cases i <;> simp [Block.cellAt, Cell.init, *]
  refine run_cons_eq _ _ _ _ _ _ _ _ (set_miss_explicit _ _ 53 a7 3 81 ?_ (by decide) (by decide) rfl) ?_
  · intro i hi; interval_cases i <;> simp [Block.cellAt, Cell.init, *]
  refine run_cons_eq _ _ _ _ _ _ _ _ (set_miss_explicit _ _ 81 a8 7 0 ?_ (by decide) (by decide) rfl) ?_
  · intro i hi; interval_cases i <;> simp [Block.cellAt, Cell.init, *]
  rfl
theorem run_snoc (as : List Nat) (a : Nat) : ∀ b : Block,
    Block.run 8 b (as ++ [a]) =
      ((Block.run 8 b as).1 ++
          [(((Block.run 8 b as).2.set 8 a).ret, ((Block.run 8 b as).2.set 8 a).way)],
        ((Block.run 8 b as).2.set 8 a).block) := by
  induction as with
  | nil => intro b; rfl
  | cons x xs ih =>
    intro b
    show Block.run 8 b (x :: (xs ++ [a])) = _
    simp only [Block.run, ih, List.cons_append]

theorem set_ret_of_getByTag_none (nway : Nat) (b : Block) (a : Nat)
    (h : b.getByTag nway (Address.fields a).tag = none) : (b.set nway a).ret = MISS := by
  unfold Block.set Block.get
  rw [h]

/-! ## Counters of the cache -/

theorem access_count_cases (c : Cache) (a h m : Nat) (hc : c.count = [h, m]) :
    (((c.block.getD (Address.fields a).index (Block.new NWAY)).set NWAY a).ret = HIT ∧
        (c.access a).count = [u32 (h + 1), m]) ∨
    (((c.block.getD (Address.fields a).index (Block.new NWAY)).set NWAY a).ret = MISS ∧
        (c.access a).count = [h, u32 (m + 1)]) := by
  rcases set_ret_cases NWAY (c.block.getD (Address.fields a).index (Block.new NWAY)) a
    with hr | hr
  · left
    refine ⟨hr, ?_⟩
    unfold Cache.access
    simp only [hr, hc]
    rfl
  · right
    refine ⟨hr, ?_⟩
    unfold Cache.access
    simp only [hr, hc]
    rfl

theorem accessAll_count (as : List Nat) : ∀ (c : Cache) (h m : Nat), c.count = [h, m] →
    h + m + as.length < 2 ^ 32 →
    ∃ h2 m2, (c.accessAll as).count = [h2, m2] ∧ h2 + m2 = h + m + as.length := by
  induction as with
  | nil =>
    intro c h m hc _
    exact ⟨h, m, hc, rfl⟩
  | cons a as ih =>
    intro c h m hc hlt
    simp only [List.length_cons] at hlt
    rcases access_count_cases c a h m hc with ⟨-, hcnt⟩ | ⟨-, hcnt⟩
    · rw [u32_of_lt (by omega)] at hcnt
      obtain ⟨h2, m2, e, hsum⟩ := ih (c.access a) (h + 1) m hcnt (by omega)
      refine ⟨h2, m2, e, ?_⟩
      simp only [List.length_cons]; omega
    · rw [u32_of_lt (by omega)] at hcnt
      obtain ⟨h2, m2, e, hsum⟩ := ih (c.access a) h (m + 1) hcnt (by omega)
      refine ⟨h2, m2, e, ?_⟩
      simp only [List.length_cons]; omega

theorem accessAll_cons (c : Cache) (a : Nat) (as : List Nat) :
    c.accessAll (a :: as) = (c.access a).accessAll as := rfl

theorem replicate_getD_zero (n : Nat) (hn : 0 < n) (x d : Block) :
    (List.replicate n x).getD 0 d = x := by
  cases n with
  | zero => omega
  | succ k => rfl

theorem set_zero_getD (l : List Block) (hl : 0 < l.length) (x d : Block) :
    (l.set 0 x).getD 0 d = x := by
  cases l with
  | nil => simp at hl
  | cons y ys => rfl

theorem accessAll_append (c : Cache) (xs ys : List Nat) :
    c.accessAll (xs ++ ys) = (c.accessAll xs).accessAll ys := by
  unfold Cache.accessAll
  rw [List.foldl_append]

/-- The set reached in set 0 after the first access to address 0. -/
theorem hit_zero_block :
    Block.set NWAY { cell := { v := true, tag := 0 } :: List.replicate 7 Cell.init, state := 104 } 0
      = { ret := HIT, way := 0,
          block := { cell := { v := true, tag := 0 } :: List.replicate 7 Cell.init,
                     state := 104 } } := by
  decide

theorem access_zero_hit (L : List Block) (k : Nat) (hL : 0 < L.length)
    (hB : L.getD 0 (Block.new NWAY) =
      { cell := { v := true, tag := 0 } :: List.replicate 7 Cell.init, state := 104 }) :
    Cache.access { block := L, count := [k, 1] } 0 = { block := L, count := [u32 (k + 1), 1] } := by
  have hidx : (Address.fields 0).index = 0 := by decide
  unfold Cache.access
  simp only [hidx, hB, hit_zero_block]
  congr 1
  rw [← hB]
  cases L with
  | nil => simp at hL
  | cons x xs => simp

theorem accessAll_zero_hits (L : List Block) (hL : 0 < L.length)
    (hB : L.getD 0 (Block.new NWAY) =
      { cell := { v := true, tag := 0 } :: List.replicate 7 Cell.init, state := 104 })
    (n : Nat) : ∀ k, Cache.accessAll { block := L, count := [u32 k, 1] } (List.replicate n 0)
      = { block := L, count := [u32 (k + n), 1] } := by
  induction n with
  | zero => intro k; rfl
  | succ n ih =>
    intro k
    rw [List.replicate_succ, accessAll_cons, access_zero_hit L _ hL hB]
    have : u32 (u32 k + 1) = u32 (k + 1) := by
      unfold u32; omega
    rw [this, ih (k + 1)]
    congr 3
    omega

theorem access_new_zero :
    Cache.access Cache.new 0 =
      { block := (List.replicate NLINE (Block.new NWAY)).set 0
          { cell := { v := true, tag := 0 } :: List.replicate 7 Cell.init, state := 104 },
        count := [u32 0, 1] } := by
  have hidx : (Address.fields 0).index = 0 := by decide
  have hset := new8_set 0
  have hget : (List.replicate NLINE (Block.new NWAY)).getD 0 (Block.new NWAY)
      = Block.new 8 := replicate_getD_zero NLINE (by decide) _ _
  unfold Cache.access
  simp only [hidx]
  unfold Cache.new
  simp only [hget]
  rw [show Block.set NWAY (Block.new 8) 0 = Block.set 8 (Block.new 8) 0 from rfl, hset]
  rfl

/-- Repeated accesses to address 0 on a fresh cache: one miss, then hits only. -/
theorem accessAll_new_zero (n : Nat) :
    Cache.accessAll Cache.new (List.replicate (n + 1) 0)
      = { block := (List.replicate NLINE (Block.new NWAY)).set 0
            { cell := { v := true, tag := 0 } :: List.replicate 7 Cell.init, state := 104 },
          count := [u32 n, 1] } := by
  rw [List.replicate_succ, accessAll_cons, access_new_zero]
  have h := accessAll_zero_hits ((List.replicate NLINE (Block.new NWAY)).set 0
      { cell := { v := true, tag := 0 } :: List.replicate 7 Cell.init, state := 104 })
    (by rw [List.length_set, List.length_replicate]; decide)
    (set_zero_getD _ (by rw [List.length_replicate]; decide) _ _) n 0
  rw [h, Nat.zero_add]

theorem new_count : Cache.new.count = [0, 0] := rfl

theorem set_state_lt (b : Block) (a : Nat) (hs : b.state < 128) :
    (b.set 8 a).block.state < 128 := by
  unfold Block.set
  cases hg : b.get 8 a with
  | some w => exact hitUpdate8_lt b.state w hs
  | none =>
    simp only [Block.setLRU]
    cases hf : Block.findLRU 8 b.state with
    | some i => exact missUpdate8_lt b.state i hs
    | none => exact hs

theorem run_state_lt (as : List Nat) : ∀ b : Block, b.state < 128 →
    (Block.run 8 b as).2.state < 128 := by
  induction as with
  | nil => intro b hb; exact hb
  | cons a as ih =>
    intro b hb
    exact ih (b.set 8 a).block (set_state_lt b a hb)

/-! ## Independence of the sets of the cache -/

theorem access_block (c : Cache) (a : Nat) :
    (c.access a).block = c.block.set (Address.fields a).index
      ((c.block.getD (Address.fields a).index (Block.new NWAY)).set NWAY a).block := rfl

theorem access_block_length (c : Cache) (a : Nat) :
    (c.access a).block.length = c.block.length := by
  rw [access_block, List.length_set]

theorem access_block_ne (c : Cache) (a j : Nat) (h : j ≠ (Address.fields a).index) :
    (c.access a).block.getD j (Block.new NWAY) = c.block.getD j (Block.new NWAY) := by
  rw [access_block]
  simp only [List.getD_eq_getElem?_getD]
  rw [List.getElem?_set_ne (Ne.symm h)]

theorem access_block_self (c : Cache) (a : Nat) (h : (Address.fields a).index < c.block.length) :
    (c.access a).block.getD (Address.fields a).index (Block.new NWAY)
      = ((c.block.getD (Address.fields a).index (Block.new NWAY)).set NWAY a).block := by
  rw [access_block]
  simp only [List.getD_eq_getElem?_getD]
  rw [List.getElem?_set_self (by simpa using h)]
  rfl

theorem run_cons_snd (n : Nat) (b : Block) (a : Nat) (as : List Nat) :
    (Block.run n b (a :: as)).2 = (Block.run n (b.set n a).block as).2 := rfl

theorem index_lt (a : Nat) : (Address.fields a).index < NLINE := by
  unfold Address.fields NLINE
  simp only
  omega

/-- The set at index `i` after a sequence of cache accesses is the result of running, on
that set alone, the accesses whose index is `i`. -/
theorem accessAll_block (as : List Nat) : ∀ (c : Cache) (i : Nat), i < c.block.length →
    (c.accessAll as).block.getD i (Block.new NWAY)
      = (Block.run NWAY (c.block.getD i (Block.new NWAY))
          (as.filter (fun a => (Address.fields a).index == i))).2 := by
  induction as with
  | nil => intro c i _; rfl
  | cons a as ih =>
    intro c i hi
    rw [accessAll_cons, ih (c.access a) i (by rw [access_block_length]; exact hi)]
    by_cases h : (Address.fields a).index = i
    · have hf : (a :: as).filter (fun a => (Address.fields a).index == i)
          = a :: as.filter (fun a => (Address.fields a).index == i) := by
        rw [List.filter_cons_of_pos (by simpa using h)]
      rw [hf, run_cons_snd]
      subst h
      rw [access_block_self c a hi]
    · have hf : (a :: as).filter (fun a => (Address.fields a).index == i)
          = as.filter (fun a => (Address.fields a).index == i) := by
        rw [List.filter_cons_of_neg (by simpa using h)]
      rw [hf, access_block_ne c a i (Ne.symm h)]

theorem accessAll_block_length (as : List Nat) : ∀ c : Cache,
    (c.accessAll as).block.length = c.block.length := by
  induction as with
  | nil => intro c; rfl
  | cons a as ih => intro c; rw [accessAll_cons, ih, access_block_length]

/-! ## Invariants of a set -/

theorem getByTag_none_elim (nway : Nat) (b : Block) (t : Nat)
    (h : b.getByTag nway t = none) (i : Nat) (hi : i < nway) :
    ¬ ((b.cellAt i).v = true ∧ (b.cellAt i).tag = t) := by
  unfold Block.getByTag at h
  rw [List.find?_range_eq_none] at h
  have := h i hi
  rw [← isHit_iff]
  simpa using this

theorem getByTag_some_elim (nway : Nat) (b : Block) (t w : Nat)
    (h : b.getByTag nway t = some w) :
    w < nway ∧ (b.cellAt w).v = true ∧ (b.cellAt w).tag = t := by
  unfold Block.getByTag at h
  rw [List.find?_range_eq_some] at h
  obtain ⟨h1, h2, -⟩ := h
  exact ⟨List.mem_range.1 h2, (isHit_iff _ _).1 h1⟩

theorem getByTag_ne_none (nway : Nat) (b : Block) (t i : Nat) (hi : i < nway)
    (hv : (b.cellAt i).v = true) (ht : (b.cellAt i).tag = t) :
    ∃ h, b.getByTag nway t = some h := by
  cases hg : b.getByTag nway t with
  | some h => exact ⟨h, rfl⟩
  | none => exact absurd ⟨hv, ht⟩ (getByTag_none_elim nway b t hg i hi)

theorem cellAt_cell_eq (b b2 : Block) (h : b.cell = b2.cell) (i : Nat) :
    b.cellAt i = b2.cellAt i := by
  unfold Block.cellAt
  rw [h]

/-- Every access is a hit at a way below 8 or a miss at the way found by `setLRU`. -/
theorem set_cases (b : Block) (a : Nat) :
    (∃ h, b.getByTag 8 (Address.fields a).tag = some h ∧ h < 8 ∧
      b.set 8 a = { ret := HIT, way := h,
                    block := { cell := b.cell, state := Block.hitUpdate 8 b.state h } }) ∨
    (∃ w, b.getByTag 8 (Address.fields a).tag = none ∧ Block.findLRU 8 b.state = some w ∧
      w < 8 ∧
      b.set 8 a = { ret := MISS, way := w,
                    block := { cell := b.cell.set w
                                 { v := true, tag := (Address.fields a).tag },
                               state := Block.missUpdate 8 b.state w } }) := by
  cases hg : b.getByTag 8 (Address.fields a).tag with
  | some h =>
    left
    exact ⟨h, rfl, (getByTag_some_elim 8 b _ h hg).1, set_of_hit 8 b a h hg⟩
  | none =>
    right
    obtain ⟨w, hf, hw, -, -⟩ := findLRU8_total b.state
    exact ⟨w, rfl, hf, hw, set_of_miss 8 b a w hg hf⟩

theorem set_length (b : Block) (a : Nat) : (b.set 8 a).block.cell.length = b.cell.length := by
  rcases set_cases b a with ⟨h, -, -, e⟩ | ⟨w, -, -, -, e⟩
  · rw [e]
  · rw [e]; exact List.length_set _ _ _

theorem run_length (as : List Nat) : ∀ b : Block,
    (Block.run 8 b as).2.cell.length = b.cell.length := by
  induction as with
  | nil => intro b; rfl
  | cons a as ih =>
    intro b
    rw [run_cons_snd, ih, set_length]

theorem run_append_snd (as bs : List Nat) : ∀ b : Block,
    (Block.run 8 b (as ++ bs)).2 = (Block.run 8 (Block.run 8 b as).2 bs).2 := by
  induction as with
  | nil => intro b; rfl
  | cons a as ih =>
    intro b
    show (Block.run 8 b (a :: (as ++ bs))).2 = _
    rw [run_cons_snd, ih, run_cons_snd]

theorem set_valid_mono (b : Block) (a i : Nat) (hv : (b.cellAt i).v = true) :
    ((b.set 8 a).block.cellAt i).v = true := by
  rcases set_cases b a with ⟨h, -, -, e⟩ | ⟨w, -, -, -, e⟩
  · rw [e]; exact hv
  · rw [e]
    by_cases hi : i = w
    · by_cases hw : w < b.cell.length
      · subst hi
        rw [cellAt_set_self _ _ _ _ hw]
      · have : b.cell.set w { v := true, tag := (Address.fields a).tag } = b.cell :=
          List.set_eq_of_length_le (by omega)
        rw [cellAt_cell_eq _ b this]
        exact hv
    · rw [cellAt_set_ne _ _ b.state _ _ _ hi]
      exact hv

theorem run_valid_mono (as : List Nat) : ∀ (b : Block) (i : Nat), (b.cellAt i).v = true →
    ((Block.run 8 b as).2.cellAt i).v = true := by
  induction as with
  | nil => intro b i h; exact h
  | cons a as ih =>
    intro b i h
    rw [run_cons_snd]
    exact ih _ i (set_valid_mono b a i h)

/-- One access keeps the valid ways of a set pairwise different in their tags. -/
theorem set_unique (b : Block) (a : Nat) (hlen : b.cell.length = 8)
    (hu : ∀ i j, i < 8 → j < 8 → (b.cellAt i).v = true → (b.cellAt j).v = true →
      (b.cellAt i).tag = (b.cellAt j).tag → i = j) :
    ∀ i j, i < 8 → j < 8 → ((b.set 8 a).block.cellAt i).v = true →
      ((b.set 8 a).block.cellAt j).v = true →
      ((b.set 8 a).block.cellAt i).tag = ((b.set 8 a).block.cellAt j).tag → i = j := by
  rcases set_cases b a with ⟨h, -, -, e⟩ | ⟨w, hg, -, hw, e⟩
  · rw [e]; exact hu
  · rw [e]
    intro i j hi hj hvi hvj ht
    have hself := cellAt_set_self b.cell (Block.missUpdate 8 b.state w) w
      { v := true, tag := (Address.fields a).tag } (by omega)
    by_cases hiw : i = w
    · by_cases hjw : j = w
      · rw [hiw, hjw]
      · exfalso
        rw [cellAt_set_ne _ _ b.state _ _ _ hjw] at hvj ht
        rw [hiw, hself] at ht
        exact getByTag_none_elim 8 b _ hg j hj ⟨hvj, ht.symm⟩
    · by_cases hjw : j = w
      · exfalso
        rw [cellAt_set_ne _ _ b.state _ _ _ hiw] at hvi ht
        rw [hjw, hself] at ht
        exact getByTag_none_elim 8 b _ hg i hi ⟨hvi, ht⟩
      · rw [cellAt_set_ne _ _ b.state _ _ _ hiw] at hvi ht
        rw [cellAt_set_ne _ _ b.state _ _ _ hjw] at hvj ht
        exact hu i j hi hj hvi hvj ht

theorem run_unique (as : List Nat) : ∀ b : Block, b.cell.length = 8 →
    (∀ i j, i < 8 → j < 8 → (b.cellAt i).v = true → (b.cellAt j).v = true →
      (b.cellAt i).tag = (b.cellAt j).tag → i = j) →
    ∀ i j, i < 8 → j < 8 → ((Block.run 8 b as).2.cellAt i).v = true →
      ((Block.run 8 b as).2.cellAt j).v = true →
      ((Block.run 8 b as).2.cellAt i).tag = ((Block.run 8 b as).2.cellAt j).tag → i = j := by
  induction as with
  | nil => intro b _ hu; exact hu
  | cons a as ih =>
    intro b hlen hu
    rw [run_cons_snd]
    exact ih _ (by rw [set_length]; exact hlen) (set_unique b a hlen hu)

theorem new8_invalid (i : Nat) : ((Block.new 8).cellAt i).v = false := by
  by_cases h : i < 8
  · interval_cases i <;> rfl
  · have hl : (Block.new 8).cell.length ≤ i := by
      simp only [Block.new, List.length_replicate]; omega
    unfold Block.cellAt
    rw [List.getD_eq_default _ _ hl]
    rfl

/-! ## Recency: how far a way is from being selected -/

set_option maxRecDepth 1000000 in
theorem toward_hitUpdate_self : ∀ s, s < 128 → ∀ w, w < 8 →
    Block.toward (Block.hitUpdate 8 s w) w = 0 := by
  decide

set_option maxRecDepth 1000000 in
set_option maxHeartbeats 4000000 in
theorem toward_hitUpdate_le : ∀ s, s < 128 → ∀ w, w < 8 → ∀ v, v < 8 →
    Block.toward (Block.hitUpdate 8 s v) w ≤ Block.toward s w + 1 := by
  decide

set_option maxRecDepth 1000000 in
theorem toward_of_findLRU : ∀ s, s < 128 → ∀ w, w < 8 →
    Block.findLRU 8 s = some w → Block.toward s w = 3 := by
  decide

set_option maxRecDepth 1000000 in
theorem missUpdate8_eq_hitUpdate8 : ∀ s, s < 128 → ∀ v, v < 8 →
    Block.findLRU 8 s = some v → Block.missUpdate 8 s v = Block.hitUpdate 8 s v := by
  decide

/-- After an access, the way it reports holds the accessed tag and no bit on its path
points to it. -/
theorem set_protects (b : Block) (a : Nat) (hlen : b.cell.length = 8) (hs : b.state < 128) :
    (b.set 8 a).way < 8 ∧
    (b.set 8 a).block.cellAt (b.set 8 a).way = { v := true, tag := (Address.fields a).tag } ∧
    Block.toward (b.set 8 a).block.state (b.set 8 a).way = 0 := by
  rcases set_cases b a with ⟨h, hg, hh, e⟩ | ⟨w, -, hf, hw, e⟩
  · rw [e]
    obtain ⟨-, hv, ht⟩ := getByTag_some_elim 8 b _ h hg
    refine ⟨hh, ?_, toward_hitUpdate_self b.state hs h hh⟩
    show b.cellAt h = _
    cases hc : b.cellAt h with
    | mk v t =>
      rw [hc] at hv ht
      simp only at hv ht
      rw [hv, ht]
  · rw [e]
    refine ⟨hw, cellAt_set_self _ _ _ _ (by omega), ?_⟩
    show Block.toward (Block.missUpdate 8 b.state w) w = 0
    rw [missUpdate8_eq_hitUpdate8 b.state hs w hw hf]
    exact toward_hitUpdate_self b.state hs w hw

/-- A way with fewer than three path bits pointing to it survives the next access, which
turns at most one more of its path bits towards it. -/
theorem set_keeps_protected (b : Block) (a w : Nat) (c : Cell) (hs : b.state < 128)
    (hw : w < 8) (hc : b.cellAt w = c) (hk : Block.toward b.state w < 3) :
    (b.set 8 a).block.cellAt w = c ∧
    Block.toward (b.set 8 a).block.state w ≤ Block.toward b.state w + 1 := by
  rcases set_cases b a with ⟨h, -, hh, e⟩ | ⟨v, -, hf, hv, e⟩
  · rw [e]
    exact ⟨hc, toward_hitUpdate_le b.state hs w hw h hh⟩
  · rw [e]
    have hne : w ≠ v := by
      intro hwv
      rw [← hwv] at hf
      have := toward_of_findLRU b.state hs w hw hf
      omega
    refine ⟨?_, ?_⟩
    · rw [cellAt_set_ne _ _ b.state _ _ _ hne]
      exact hc
    · show Block.toward (Block.missUpdate 8 b.state v) w ≤ _
      rw [missUpdate8_eq_hitUpdate8 b.state hs v hv hf]
      exact toward_hitUpdate_le b.state hs w hw v hv

/-! ## Runs of misses -/

theorem set_of_ret_miss (b : Block) (a : Nat) (h : (b.set 8 a).ret = MISS) :
    (b.set 8 a).way = (Block.setLRU 8 b a).1 ∧ (b.set 8 a).block = (Block.setLRU 8 b a).2 := by
  unfold Block.set at h ⊢
  cases hg : b.get 8 a with
  | some w =>
    rw [hg] at h
    have hne : HIT ≠ MISS := by decide
    exact absurd h hne
  | none => exact ⟨rfl, rfl⟩

/-- A run of accesses that all miss visits the ways, and ends in the state, given by
iterating the state part of `setLRU`. -/
theorem run_all_miss (as : List Nat) : ∀ b : Block,
    (∀ r, r ∈ (Block.run 8 b as).1 → r.1 = MISS) →
    (Block.run 8 b as).1.map Prod.snd = (Block.missChain as.length b.state).1 ∧
    (Block.run 8 b as).2.state = (Block.missChain as.length b.state).2 := by
  induction as with
  | nil => intro b _; exact ⟨rfl, rfl⟩
  | cons a as ih =>
    intro b hm
    have h1 : (b.set 8 a).ret = MISS := hm (_, _) (List.mem_cons_self _ _)
    obtain ⟨hw, hb⟩ := set_of_ret_miss b a h1
    have ih2 := ih (b.set 8 a).block (fun r hr => hm r (List.mem_cons_of_mem _ hr))
    have hst : (b.set 8 a).block.state =
        (match Block.findLRU 8 b.state with
          | some i => (i, Block.missUpdate 8 b.state i)
          | none => (0, b.state)).2 := by
      rw [hb]; rfl
    have hwy : (b.set 8 a).way =
        (match Block.findLRU 8 b.state with
          | some i => (i, Block.missUpdate 8 b.state i)
          | none => (0, b.state)).1 := by
      rw [hw]; rfl
    simp only [Block.run, Block.missChain, List.length_cons, List.map_cons]
    rw [ih2.1, ih2.2, hst, hwy]
    exact ⟨rfl, rfl⟩

set_option maxRecDepth 1000000 in
theorem missChain8 : ∀ s, s < 128 →
    (∀ w, w < 8 → (Block.missChain 8 s).1.count w = 1) ∧
    (Block.missChain 8 s).1.length = 8 ∧ (Block.missChain 8 s).2 = s := by
  decide

theorem missChain8_zero : Block.missChain 8 0 = ([0, 4, 2, 6, 1, 5, 3, 7], 0) := by
  decide

/-! ## Filling a fresh set -/

/-- The hit path on a set given by explicit ways and state. -/
theorem set_hit_explicit (cells : List Cell) (s a w s2 : Nat) (hw : w < 8)
    (hv : (Block.cellAt { cell := cells, state := s } w).v = true)
    (ht : (Block.cellAt { cell := cells, state := s } w).tag = (Address.fields a).tag)
    (hlow : ∀ j, j < w → ¬ ((Block.cellAt { cell := cells, state := s } j).v = true ∧
      (Block.cellAt { cell := cells, state := s } j).tag = (Address.fields a).tag))
    (hs : Block.hitUpdate 8 s w = s2) :
    Block.set 8 { cell := cells, state := s } a =
      { ret := HIT, way := w, block := { cell := cells, state := s2 } } := by
  rw [set_of_hit 8 _ a w (getByTag_eq_some 8 _ _ w hw hv ht hlow)]
  simp only [hs]

/-- The set after each of the first seven of eight accesses with pairwise distinct tags to
a fresh set: every access misses and fills the next way of the order 0, 4, 2, 6, 1, 5, 3. -/
theorem fill_prefixes (a1 a2 a3 a4 a5 a6 a7 a8 : Nat)
    (hd : ([a1, a2, a3, a4, a5, a6, a7, a8].map (fun a => (Address.fields a).tag)).Nodup) :
    Block.run 8 (Block.new 8) [a1] =
      ([(MISS, 0)],
       { cell := [{ v := true, tag := (Address.fields a1).tag },
                  Cell.init,
                  Cell.init,
                  Cell.init,
                  Cell.init,
                  Cell.init,
                  Cell.init,
                  Cell.init],
         state := 104 }) ∧
    Block.run 8 (Block.new 8) [a1, a2] =
      ([(MISS, 0), (MISS, 4)],
       { cell := [{ v := true, tag := (Address.fields a1).tag },
                  Cell.init,
                  Cell.init,
                  Cell.init,
                  { v := true, tag := (Address.fields a2).tag },
                  Cell.init,
                  Cell.init,
                  Cell.init],
         state := 58 }) ∧
    Block.run 8 (Block.new 8) [a1, a2, a3] =
      ([(MISS, 0), (MISS, 4), (MISS, 2)],
       { cell := [{ v := true, tag := (Address.fields a1).tag },
                  Cell.init,
                  { v := true, tag := (Address.fields a3).tag },
                  Cell.init,
                  { v := true, tag := (Address.fields a2).tag },
                  Cell.init,
                  Cell.init,
                  Cell.init],
         state := 94 }) ∧
    Block.run 8 (Block.new 8) [a1, a2, a3, a4] =
      ([(MISS, 0), (MISS, 4), (MISS, 2), (MISS, 6)],
       { cell := [{ v := true, tag := (Address.fields a1).tag },
                  Cell.init,
                  { v := true, tag := (Address.fields a3).tag },
                  Cell.init,
                  { v := true, tag := (Address.fields a2).tag },
                  Cell.init,
                  { v := true, tag := (Address.fields a4).tag },
                  Cell.init],
         state := 15 }) ∧
    Block.run 8 (Block.new 8) [a1, a2, a3, a4, a5] =
      ([(MISS, 0), (MISS, 4), (MISS, 2), (MISS, 6), (MISS, 1)],
       { cell := [{ v := true, tag := (Address.fields a1).tag },
                  { v := true, tag := (Address.fields a5).tag },
                  { v := true, tag := (Address.fields a3).tag },
                  Cell.init,
                  { v := true, tag := (Address.fields a2).tag },
                  Cell.init,
                  { v := true, tag := (Address.fields a4).tag },
                  Cell.init],
         state := 103 }) ∧
    Block.run 8 (Block.new 8) [a1, a2, a3, a4, a5, a6] =
      ([(MISS, 0), (MISS, 4), (MISS, 2), (MISS, 6), (MISS, 1), (MISS, 5)],
       { cell := [{ v := true, tag := (Address.fields a1).tag },
                  { v := true, tag := (Address.fields a5).tag },
                  { v := true, tag := (Address.fields a3).tag },
                  Cell.init,
                  { v := true, tag := (Address.fields a2).tag },
                  { v := true, tag := (Address.fields a6).tag },
                  { v := true, tag := (Address.fields a4).tag },
                  Cell.init],
         state := 53 }) ∧
    Block.run 8 (Block.new 8) [a1, a2, a3, a4, a5, a6, a7] =
      ([(MISS, 0), (MISS, 4), (MISS, 2), (MISS, 6), (MISS, 1), (MISS, 5), (MISS, 3)],
       { cell := [{ v := true, tag := (Address.fields a1).tag },
                  { v := true, tag := (Address.fields a5).tag },
                  { v := true, tag := (Address.fields a3).tag },
                  { v := true, tag := (Address.fields a7).tag },
                  { v := true, tag := (Address.fields a2).tag },
                  { v := true, tag := (Address.fields a6).tag },
                  { v := true, tag := (Address.fields a4).tag },
                  Cell.init],
         state := 81 }) := by
  simp only [List.map_cons, List.map_nil, List.nodup_cons, List.mem_cons, List.mem_singleton,
    List.not_mem_nil, not_or, List.nodup_nil, or_false, and_true, not_false_eq_true] at hd
  obtain ⟨⟨h12, h13, h14, h15, h16, h17, h18⟩, ⟨h23, h24, h25, h26, h27, h28⟩,
    ⟨h34, h35, h36, h37, h38⟩, ⟨h45, h46, h47, h48⟩, ⟨h56, h57, h58⟩, ⟨h67, h68⟩, h78⟩ := hd
  refine ⟨?_, ?_, ?_, ?_, ?_, ?_, ?_⟩
  · refine run_cons_eq _ _ _ _ _ _ _ _
      (set_miss_explicit _ _ 0 a1 0 104 ?_ (by decide) (by decide) rfl) ?_
    · intro i hi; interval_cases i <;> simp [Block.cellAt, Block.new, Cell.init]
    rfl
  · refine run_cons_eq _ _ _ _ _ _ _ _
      (set_miss_explicit _ _ 0 a1 0 104 ?_ (by decide) (by decide) rfl) ?_
    · intro i hi; interval_cases i <;> simp [Block.cellAt, Block.new, Cell.init]
    refine run_cons_eq _ _ _ _ _ _ _ _
      (set_miss_explicit _ _ 104 a2 4 58 ?_ (by decide) (by decide) rfl) ?_
    · intro i hi; interval_cases i <;> simp [Block.cellAt, Cell.init, *]
    rfl
  · refine run_cons_eq _ _ _ _ _ _ _ _
      (set_miss_explicit _ _ 0 a1 0 104 ?_ (by decide) (by decide) rfl) ?_
    · intro i hi; interval_cases i <;> simp [Block.cellAt, Block.new, Cell.init]
    refine run_cons_eq _ _ _ _ _ _ _ _
      (set_miss_explicit _ _ 104 a2 4 58 ?_ (by decide) (by decide) rfl) ?_
    · intro i hi; interval_cases i <;> simp [Block.cellAt, Cell.init, *]
    refine run_cons_eq _ _ _ _ _ _ _ _
      (set_miss_explicit _ _ 58 a3 2 94 ?_ (by decide) (by decide) rfl) ?_
    · intro i hi; interval_cases i <;> simp [Block.cellAt, Cell.init, *]
    rfl
  · refine run_cons_eq _ _ _ _ _ _ _ _
      (set_miss_explicit _ _ 0 a1 0 104 ?_ (by decide) (by decide) rfl) ?_
    · intro i hi; interval_cases i <;> simp [Block.cellAt, Block.new, Cell.init]
    refine run_cons_eq _ _ _ _ _ _ _ _
      (set_miss_explicit _ _ 104 a2 4 58 ?_ (by decide) (by decide) rfl) ?_
    · intro i hi; interval_cases i <;> simp [Block.cellAt, Cell.init, *]
    refine run_cons_eq _ _ _ _ _ _ _ _
      (set_miss_explicit _ _ 58 a3 2 94 ?_ (by decide) (by decide) rfl) ?_
    · intro i hi; interval_cases i <;> simp [Block.cellAt, Cell.init, *]
    refine run_cons_eq _ _ _ _ _ _ _ _
      (set_miss_explicit _ _ 94 a4 6 15 ?_ (by decide) (by decide) rfl) ?_
    · intro i hi; interval_cases i <;> simp [Block.cellAt, Cell.init, *]
    rfl
  · refine run_cons_eq _ _ _ _ _ _ _ _
      (set_miss_explicit _ _ 0 a1 0 104 ?_ (by decide) (by decide) rfl) ?_
    · intro i hi; interval_cases i <;> simp [Block.cellAt, Block.new, Cell.init]
    refine run_cons_eq _ _ _ _ _ _ _ _
      (set_miss_explicit _ _ 104 a2 4 58 ?_ (by decide) (by decide) rfl) ?_
    · intro i hi; interval_cases i <;> simp [Block.cellAt, Cell.init, *]
    refine run_cons_eq _ _ _ _ _ _ _ _
      (set_miss_explicit _ _ 58 a3 2 94 ?_ (by decide) (by decide) rfl) ?_
    · intro i hi; interval_cases i <;> simp [Block.cellAt, Cell.init, *]
    refine run_cons_eq _ _ _ _ _ _ _ _
      (set_miss_explicit _ _ 94 a4 6 15 ?_ (by decide) (by decide) rfl) ?_
    · intro i hi; interval_cases i <;> simp [Block.cellAt, Cell.init, *]
    refine run_cons_eq _ _ _ _ _ _ _ _
      (set_miss_explicit _ _ 15 a5 1 103 ?_ (by decide) (by decide) rfl) ?_
    · intro i hi; interval_cases i <;> simp [Block.cellAt, Cell.init, *]
    rfl
  · refine run_cons_eq _ _ _ _ _ _ _ _
      (set_miss_explicit _ _ 0 a1 0 104 ?_ (by decide) (by decide) rfl) ?_
    · intro i hi; interval_cases i <;> simp [Block.cellAt, Block.new, Cell.init]
    refine run_cons_eq _ _ _ _ _ _ _ _
      (set_miss_explicit _ _ 104 a2 4 58 ?_ (by decide) (by decide) rfl) ?_
    · intro i hi; interval_cases i <;> simp [Block.cellAt, Cell.init, *]
    refine run_cons_eq _ _ _ _ _ _ _ _
      (set_miss_explicit _ _ 58 a3 2 94 ?_ (by decide) (by decide) rfl) ?_
    · intro i hi; interval_cases i <;> simp [Block.cellAt, Cell.init, *]
    refine run_cons_eq _ _ _ _ _ _ _ _
      (set_miss_explicit _ _ 94 a4 6 15 ?_ (by decide) (by decide) rfl) ?_
    · intro i hi; interval_cases i <;> simp [Block.cellAt, Cell.init, *]
    refine run_cons_eq _ _ _ _ _ _ _ _
      (set_miss_explicit _ _ 15 a5 1 103 ?_ (by decide) (by decide) rfl) ?_
    · intro i hi; interval_cases i <;> simp [Block.cellAt, Cell.init, *]
    refine run_cons_eq _ _ _ _ _ _ _ _
      (set_miss_explicit _ _ 103 a6 5 53 ?_ (by decide) (by decide) rfl) ?_
    · intro i hi; interval_cases i <;> simp [Block.cellAt, Cell.init, *]
    rfl
  · refine run_cons_eq _ _ _ _ _ _ _ _
      (set_miss_explicit _ _ 0 a1 0 104 ?_ (by decide) (by decide) rfl) ?_
    · intro i hi; interval_cases i <;> simp [Block.cellAt, Block.new, Cell.init]
    refine run_cons_eq _ _ _ _ _ _ _ _
      (set_miss_explicit _ _ 104 a2 4 58 ?_ (by decide) (by decide) rfl) ?_
    · intro i hi; interval_cases i <;> simp [Block.cellAt, Cell.init, *]
    refine run_cons_eq _ _ _ _ _ _ _ _
      (set_miss_explicit _ _ 58 a3 2 94 ?_ (by decide) (by decide) rfl) ?_
    · intro i hi; interval_cases i <;> simp [Block.cellAt, Cell.init, *]
    refine run_cons_eq _ _ _ _ _ _ _ _
      (set_miss_explicit _ _ 94 a4 6 15 ?_ (by decide) (by decide) rfl) ?_
    · intro i hi; interval_cases i <;> simp [Block.cellAt, Cell.init, *]
    refine run_cons_eq _ _ _ _ _ _ _ _
      (set_miss_explicit _ _ 15 a5 1 103 ?_ (by decide) (by decide) rfl) ?_
    · intro i hi; interval_cases i <;> simp [Block.cellAt, Cell.init, *]
    refine run_cons_eq _ _ _ _ _ _ _ _
      (set_miss_explicit _ _ 103 a6 5 53 ?_ (by decide) (by decide) rfl) ?_
    · intro i hi; interval_cases i <;> simp [Block.cellAt, Cell.init, *]
    refine run_cons_eq _ _ _ _ _ _ _ _
      (set_miss_explicit _ _ 53 a7 3 81 ?_ (by decide) (by decide) rfl) ?_
    · intro i hi; interval_cases i <;> simp [Block.cellAt, Cell.init, *]
    rfl

/-! ## A set that is thrashed before it is full -/

/-- Accesses A, B, A, C, A, D, A, E, A with pairwise distinct tags on a fresh set: the
misses fill ways 0, 4, 6, 5, 7, the hits are at way 0, and ways 1, 2, 3 stay invalid. -/
theorem interleaved9 (aA aB aC aD aE aF : Nat)
    (hd : ([aA, aB, aC, aD, aE, aF].map (fun a => (Address.fields a).tag)).Nodup) :
    Block.run 8 (Block.new 8) [aA, aB, aA, aC, aA, aD, aA, aE, aA] =
      ([(MISS, 0), (MISS, 4), (HIT, 0), (MISS, 6), (HIT, 0), (MISS, 5), (HIT, 0), (MISS, 7), (HIT, 0)],
      { cell := [{ v := true, tag := (Address.fields aA).tag },
                 Cell.init,
                 Cell.init,
                 Cell.init,
                 { v := true, tag := (Address.fields aB).tag },
                 { v := true, tag := (Address.fields aD).tag },
                 { v := true, tag := (Address.fields aC).tag },
                 { v := true, tag := (Address.fields aE).tag }],
        state := 104 }) := by
  simp only [List.map_cons, List.map_nil, List.nodup_cons, List.mem_cons, List.mem_singleton,
    List.not_mem_nil, not_or, List.nodup_nil, or_false, and_true, not_false_eq_true] at hd
  obtain ⟨⟨hAB, hAC, hAD, hAE, hAF⟩, ⟨hBC, hBD, hBE, hBF⟩, ⟨hCD, hCE, hCF⟩, ⟨hDE, hDF⟩,
    hEF⟩ := hd
  refine run_cons_eq _ _ _ _ _ _ _ _
    (set_miss_explicit _ _ 0 aA 0 104 ?_ (by decide) (by decide) rfl) ?_
  · intro i hi; interval_cases i <;> simp [Block.cellAt, Block.new, Cell.init]
  refine run_cons_eq _ _ _ _ _ _ _ _
    (set_miss_explicit _ _ 104 aB 4 58 ?_ (by decide) (by decide) rfl) ?_
  · intro i hi; interval_cases i <;> simp [Block.cellAt, Cell.init, *]
  refine run_cons_eq _ _ _ _ _ _ _ _
    (set_hit_explicit _ 58 aA 0 122 (by decide) rfl rfl
      (fun j hj => absurd hj (Nat.not_lt_zero j)) (by decide)) ?_
  refine run_cons_eq _ _ _ _ _ _ _ _
    (set_miss_explicit _ _ 122 aC 6 43 ?_ (by decide) (by decide) rfl) ?_
  · intro i hi; interval_cases i <;> simp [Block.cellAt, Cell.init, *]
  refine run_cons_eq _ _ _ _ _ _ _ _
    (set_hit_explicit _ 43 aA 0 107 (by decide) rfl rfl
      (fun j hj => absurd hj (Nat.not_lt_zero j)) (by decide)) ?_
  refine run_cons_eq _ _ _ _ _ _ _ _
    (set_miss_explicit _ _ 107 aD 5 57 ?_ (by decide) (by decide) rfl) ?_
  · intro i hi; interval_cases i <;> simp [Block.cellAt, Cell.init, *]
  refine run_cons_eq _ _ _ _ _ _ _ _
    (set_hit_explicit _ 57 aA 0 121 (by decide) rfl rfl
      (fun j hj => absurd hj (Nat.not_lt_zero j)) (by decide)) ?_
  refine run_cons_eq _ _ _ _ _ _ _ _
    (set_miss_explicit _ _ 121 aE 7 40 ?_ (by decide) (by decide) rfl) ?_
  · intro i hi; interval_cases i <;> simp [Block.cellAt, Cell.init, *]
  refine run_cons_eq _ _ _ _ _ _ _ _
    (set_hit_explicit _ 40 aA 0 104 (by decide) rfl rfl
      (fun j hj => absurd hj (Nat.not_lt_zero j)) (by decide)) ?_
  rfl

/-! ## Claims -/

/-- C1 (encoding exhaustiveness): for each of the two hard-coded encodings (4 and 8 ways)
and every state `s < 2^(W-1)` there is exactly one way `w < W` with
`(s & mask[w]) == value[w]`. -/
theorem encoding_exhaustive (nway : Nat) (hn : nway = 4 ∨ nway = 8) (s : Nat)
    (hs : s < 2 ^ (nway - 1)) :
    ∃! w, w < nway ∧ s &&& Block.maskAt nway w = Block.valueAt nway w := by
  rcases hn with rfl | rfl
  · obtain ⟨w, _, hw, hm, hu⟩ := findLRU_spec4 s hs
    exact ⟨w, ⟨hw, hm⟩, fun y hy => hu y hy.1 hy.2⟩
  · obtain ⟨w, _, hw, hm, hu⟩ := findLRU_spec8 s hs
    exact ⟨w, ⟨hw, hm⟩, fun y hy => hu y hy.1 hy.2⟩

theorem encoding_exhaustive_witness :
    (8 = 4 ∨ 8 = 8) ∧ 104 < 2 ^ (8 - 1) ∧
      ∃! w, w < 8 ∧ 104 &&& Block.maskAt 8 w = Block.valueAt 8 w :=
  ⟨Or.inr rfl, by decide, encoding_exhaustive 8 (Or.inr rfl) 104 (by decide)⟩

/-- C2 (miss postcondition): in an 8-way set with state `s < 128`, an access whose tag is
held by no valid way returns `MISS`, overwrites exactly the unique way `w` with
`(s & mask[w]) == value[w]` by `(valid, tag)`, leaves the other ways unchanged and sets the
state to `s ^ mask[w]`; `w` is the same for every set with the same state. -/
theorem miss_postcondition (b : Block) (a : Nat) (hlen : b.cell.length = 8)
    (hs : b.state < 128)
    (hmiss : ∀ i, i < 8 →
      ¬ ((b.cellAt i).v = true ∧ (b.cellAt i).tag = (Address.fields a).tag)) :
    ∃ w, w < 8 ∧ b.state &&& Block.maskAt 8 w = Block.valueAt 8 w ∧
      (∀ y, y < 8 → b.state &&& Block.maskAt 8 y = Block.valueAt 8 y → y = w) ∧
      (b.set 8 a).ret = MISS ∧ (b.set 8 a).way = w ∧
      (b.set 8 a).block.cellAt w = { v := true, tag := (Address.fields a).tag } ∧
      (∀ i, i ≠ w → (b.set 8 a).block.cellAt i = b.cellAt i) ∧
      (b.set 8 a).block.cell.length = 8 ∧
      (b.set 8 a).block.state = b.state ^^^ Block.maskAt 8 w ∧
      (∀ (b2 : Block) (a2 : Nat), b2.state = b.state →
        (∀ i, i < 8 →
          ¬ ((b2.cellAt i).v = true ∧ (b2.cellAt i).tag = (Address.fields a2).tag)) →
        (b2.set 8 a2).way = w) := by
  obtain ⟨w, hf, hw, hm, hu⟩ := findLRU8_total b.state
  have hset := set_of_miss 8 b a w (getByTag_eq_none 8 b _ hmiss) hf
  refine ⟨w, hw, hm, hu, ?_, ?_, ?_, ?_, ?_, ?_, ?_⟩
  · rw [hset]
  · rw [hset]
  · rw [hset]
    exact cellAt_set_self _ _ _ _ (by omega)
  · intro i hi
    rw [hset]
    exact cellAt_set_ne _ _ b.state _ _ _ hi
  · rw [hset]
    simpa using hlen
  · rw [hset]
    exact missUpdate_eq 8 _ _ (lt_trans hs (by decide)) (lt_trans (maskAt8_lt w) (by decide))
  · intro b2 a2 h2 hmiss2
    rw [set_of_miss 8 b2 a2 w (getByTag_eq_none 8 b2 _ hmiss2) (by rw [h2]; exact hf)]

theorem miss_postcondition_witness :
    (Block.new 8).cell.length = 8 ∧ (Block.new 8).state < 128 ∧
    (∀ i, i < 8 → ¬ (((Block.new 8).cellAt i).v = true ∧
      ((Block.new 8).cellAt i).tag = (Address.fields 81920).tag)) ∧
    ∃ w, w < 8 ∧ (Block.new 8).state &&& Block.maskAt 8 w = Block.valueAt 8 w ∧
      (∀ y, y < 8 → (Block.new 8).state &&& Block.maskAt 8 y = Block.valueAt 8 y → y = w) ∧
      ((Block.new 8).set 8 81920).ret = MISS ∧ ((Block.new 8).set 8 81920).way = w ∧
      ((Block.new 8).set 8 81920).block.cellAt w
        = { v := true, tag := (Address.fields 81920).tag } ∧
      (∀ i, i ≠ w → ((Block.new 8).set 8 81920).block.cellAt i = (Block.new 8).cellAt i) ∧
      ((Block.new 8).set 8 81920).block.cell.length = 8 ∧
      ((Block.new 8).set 8 81920).block.state = (Block.new 8).state ^^^ Block.maskAt 8 w ∧
      (∀ (b2 : Block) (a2 : Nat), b2.state = (Block.new 8).state →
        (∀ i, i < 8 →
          ¬ ((b2.cellAt i).v = true ∧ (b2.cellAt i).tag = (Address.fields a2).tag)) →
        (b2.set 8 a2).way = w) :=
  ⟨rfl, by decide, by decide,
    miss_postcondition (Block.new 8) 81920 rfl (by decide) (by decide)⟩

/-- C3 (hit idempotence): if `h` is the lowest valid way holding tag `t`, then any `n ≥ 1`
consecutive accesses with tag `t` all return `HIT` at way `h`, leave every way entry
unchanged, and leave the state equal to `(s & ~mask[h]) | next_value[h]`. -/
theorem hit_idempotence (b : Block) (t h : Nat) (as : List Nat) (hs : b.state < 2 ^ 32)
    (hh : h < 8) (hv : (b.cellAt h).v = true) (ht : (b.cellAt h).tag = t)
    (hlow : ∀ j, j < h → ¬ ((b.cellAt j).v = true ∧ (b.cellAt j).tag = t))
    (hne : as ≠ []) (htag : ∀ a, a ∈ as → (Address.fields a).tag = t) :
    Block.run 8 b as =
      (List.replicate as.length (HIT, h),
       { cell := b.cell,
         state := (b.state &&& not64 (Block.maskAt 8 h)) ||| Block.nextValueAt 8 h }) := by
  have hnv : Block.nextValueAt 8 h < 2 ^ 32 := lt_trans (nextValueAt8_lt h) (by decide)
  cases as with
  | nil => exact absurd rfl hne
  | cons a as =>
    have hta : (Address.fields a).tag = t := htag a (List.mem_cons_self _ _)
    have hg : b.getByTag 8 (Address.fields a).tag = some h := by
      rw [hta]; exact getByTag_eq_some 8 b t h hh hv ht hlow
    have hset := set_of_hit 8 b a h hg
    have hrest := run_hits_fixed
      { cell := b.cell, state := Block.hitUpdate 8 b.state h } t h hh hv ht hlow
      (hitUpdate_idem 8 b.state h hs hnv) as (fun x hx => htag x (List.mem_cons_of_mem _ hx))
    rw [hitUpdate_eq 8 b.state h hs hnv] at hset hrest
    simp only [Block.run, hset, hrest, List.length_cons, List.replicate_succ]

theorem hit_idempotence_witness :
    ((Block.new 8).set 8 81920).block.state < 2 ^ 32 ∧ 0 < 8 ∧
    (((Block.new 8).set 8 81920).block.cellAt 0).v = true ∧
    (((Block.new 8).set 8 81920).block.cellAt 0).tag = 5 ∧
    (∀ j, j < 0 → ¬ ((((Block.new 8).set 8 81920).block.cellAt j).v = true ∧
      (((Block.new 8).set 8 81920).block.cellAt j).tag = 5)) ∧
    [81920, 81924, 81920] ≠ [] ∧
    (∀ a, a ∈ [81920, 81924, 81920] → (Address.fields a).tag = 5) ∧
    Block.run 8 ((Block.new 8).set 8 81920).block [81920, 81924, 81920] =
      (List.replicate [81920, 81924, 81920].length (HIT, 0),
       { cell := ((Block.new 8).set 8 81920).block.cell,
         state := (((Block.new 8).set 8 81920).block.state &&& not64 (Block.maskAt 8 0))
           ||| Block.nextValueAt 8 0 }) :=
  ⟨by decide, by decide, by decide, by decide, by decide, by decide, by decide,
    hit_idempotence ((Block.new 8).set 8 81920).block 5 0 [81920, 81924, 81920]
      (by decide) (by decide) (by decide) (by decide) (by decide) (by decide) (by decide)⟩

/-- C4 (miss then hit): in every 8-way set, an access whose tag is held by no valid way
returns `MISS` and fills some way `w`; an immediately following access with the same tag
returns `HIT` at that same way `w`. -/
theorem miss_then_hit (b : Block) (a a2 : Nat) (hlen : b.cell.length = 8)
    (hmiss : ∀ i, i < 8 →
      ¬ ((b.cellAt i).v = true ∧ (b.cellAt i).tag = (Address.fields a).tag))
    (hsame : (Address.fields a2).tag = (Address.fields a).tag) :
    ∃ w, w < 8 ∧ (b.set 8 a).ret = MISS ∧ (b.set 8 a).way = w ∧
      (b.set 8 a).block.cellAt w = { v := true, tag := (Address.fields a).tag } ∧
      ((b.set 8 a).block.set 8 a2).ret = HIT ∧ ((b.set 8 a).block.set 8 a2).way = w := by
  obtain ⟨w, hf, hw, -, -⟩ := findLRU8_total b.state
  have hset := set_of_miss 8 b a w (getByTag_eq_none 8 b _ hmiss) hf
  have hc := cellAt_set_self b.cell (Block.missUpdate 8 b.state w) w
    { v := true, tag := (Address.fields a).tag } (by omega)
  have hg : (b.set 8 a).block.getByTag 8 (Address.fields a2).tag = some w := by
    rw [hset]
    apply getByTag_eq_some 8 _ _ w hw
    · rw [hc]
    · rw [hc, hsame]
    · intro j hj
      rw [cellAt_set_ne _ _ b.state _ _ _ (Nat.ne_of_lt hj), hsame]
      exact hmiss j (lt_trans hj hw)
  have hset2 := set_of_hit 8 (b.set 8 a).block a2 w hg
  refine ⟨w, hw, ?_, ?_, ?_, ?_, ?_⟩
  · rw [hset]
  · rw [hset]
  · rw [hset]; exact hc
  · rw [hset2]
  · rw [hset2]

theorem miss_then_hit_witness :
    (Block.new 8).cell.length = 8 ∧
    (∀ i, i < 8 → ¬ (((Block.new 8).cellAt i).v = true ∧
      ((Block.new 8).cellAt i).tag = (Address.fields 81920).tag)) ∧
    (Address.fields 81924).tag = (Address.fields 81920).tag ∧
    ∃ w, w < 8 ∧ ((Block.new 8).set 8 81920).ret = MISS ∧
      ((Block.new 8).set 8 81920).way = w ∧
      ((Block.new 8).set 8 81920).block.cellAt w
        = { v := true, tag := (Address.fields 81920).tag } ∧
      (((Block.new 8).set 8 81920).block.set 8 81924).ret = HIT ∧
      (((Block.new 8).set 8 81920).block.set 8 81924).way = w :=
  ⟨rfl, by decide, by decide,
    miss_then_hit (Block.new 8) 81920 81924 rfl (by decide) (by decide)⟩

/-- C5 (capacity eviction): starting from the empty 8-way set, nine accesses with pairwise
distinct tags all return `MISS`; the ninth overwrites the way `w` matching the state just
before it, and the tag that `w` held before is no longer found: a later access to it
returns `MISS`. -/
theorem capacity_eviction (a1 a2 a3 a4 a5 a6 a7 a8 a9 : Nat)
    (hd : ([a1, a2, a3, a4, a5, a6, a7, a8, a9].map
      (fun a => (Address.fields a).tag)).Nodup) :
    let b8 := (Block.run 8 (Block.new 8) [a1, a2, a3, a4, a5, a6, a7, a8]).2
    let r9 := Block.run 8 (Block.new 8) [a1, a2, a3, a4, a5, a6, a7, a8, a9]
    r9.1.map Prod.fst = List.replicate 9 MISS ∧
    ∃ w, w < 8 ∧ b8.state &&& Block.maskAt 8 w = Block.valueAt 8 w ∧
      (b8.set 8 a9).ret = MISS ∧ (b8.set 8 a9).way = w ∧ (b8.set 8 a9).block = r9.2 ∧
      (b8.cellAt w).v = true ∧
      r9.2.cellAt w = { v := true, tag := (Address.fields a9).tag } ∧
      (∀ i, i ≠ w → r9.2.cellAt i = b8.cellAt i) ∧
      r9.2.getByTag 8 (b8.cellAt w).tag = none ∧
      ∀ a, (Address.fields a).tag = (b8.cellAt w).tag → (r9.2.set 8 a).ret = MISS := by
  intro b8 r9
  have eb8 : b8 = (Block.run 8 (Block.new 8) [a1, a2, a3, a4, a5, a6, a7, a8]).2 := rfl
  have er9 : r9 = Block.run 8 (Block.new 8) [a1, a2, a3, a4, a5, a6, a7, a8, a9] := rfl
  clear_value b8 r9
  have hd8 : ([a1, a2, a3, a4, a5, a6, a7, a8].map
      (fun a => (Address.fields a).tag)).Nodup := by
    have hsub : List.Sublist
        ([a1, a2, a3, a4, a5, a6, a7, a8].map (fun a => (Address.fields a).tag))
        ([a1, a2, a3, a4, a5, a6, a7, a8, a9].map (fun a => (Address.fields a).tag)) := by
      apply List.Sublist.map
      exact (List.sublist_append_left [a1, a2, a3, a4, a5, a6, a7, a8] [a9])
    exact hd.sublist hsub
  have h8 := fill8 a1 a2 a3 a4 a5 a6 a7 a8 hd8
  simp only [List.map_cons, List.map_nil, List.nodup_cons, List.mem_cons, List.mem_singleton,
    List.not_mem_nil, not_or, List.nodup_nil, or_false, and_true, not_false_eq_true] at hd
  obtain ⟨⟨h12, h13, h14, h15, h16, h17, h18, h19⟩, ⟨-, -, -, -, -, -, h29⟩,
    ⟨-, -, -, -, -, h39⟩, ⟨-, -, -, -, h49⟩, ⟨-, -, -, h59⟩, ⟨-, -, h69⟩, ⟨-, h79⟩, h89⟩ := hd
  have hb8 : b8 = { state := 0, cell := [{ v := true, tag := (Address.fields a1).tag },
                  { v := true, tag := (Address.fields a5).tag },
                  { v := true, tag := (Address.fields a3).tag },
                  { v := true, tag := (Address.fields a7).tag },
                  { v := true, tag := (Address.fields a2).tag },
                  { v := true, tag := (Address.fields a6).tag },
                  { v := true, tag := (Address.fields a4).tag },
                  { v := true, tag := (Address.fields a8).tag }] } := by
    rw [eb8, h8]
  have hset : b8.set 8 a9 =
      { ret := MISS, way := 0, block := { state := 104, cell := [{ v := true, tag := (Address.fields a9).tag },
                  { v := true, tag := (Address.fields a5).tag },
                  { v := true, tag := (Address.fields a3).tag },
                  { v := true, tag := (Address.fields a7).tag },
                  { v := true, tag := (Address.fields a2).tag },
                  { v := true, tag := (Address.fields a6).tag },
                  { v := true, tag := (Address.fields a4).tag },
                  { v := true, tag := (Address.fields a8).tag }] } } := by
    rw [hb8]
    refine set_miss_explicit _ _ 0 a9 0 104 ?_ (by decide) (by decide) rfl
    intro i hi
    interval_cases i <;> simp [Block.cellAt, *]
  have hr9 : r9 = ((Block.run 8 (Block.new 8) [a1, a2, a3, a4, a5, a6, a7, a8]).1 ++
      [((b8.set 8 a9).ret, (b8.set 8 a9).way)], (b8.set 8 a9).block) := by
    rw [er9, eb8]
    exact run_snoc [a1, a2, a3, a4, a5, a6, a7, a8] a9 (Block.new 8)
  have hnone : Block.getByTag 8 (b8.set 8 a9).block (Address.fields a1).tag = none := by
    rw [hset]
    apply getByTag_eq_none
    intro i hi
    have h91 := Ne.symm h19
    have h51 := Ne.symm h15
    have h31 := Ne.symm h13
    have h71 := Ne.symm h17
    have h21 := Ne.symm h12
    have h61 := Ne.symm h16
    have h41 := Ne.symm h14
    have h81 := Ne.symm h18
    interval_cases i <;> simp [Block.cellAt, *]
  have hold : (b8.cellAt 0).tag = (Address.fields a1).tag := by rw [hb8]; rfl
  refine ⟨?_, 0, by decide, ?_, ?_, ?_, ?_, ?_, ?_, ?_, ?_, ?_⟩
  · rw [hr9, h8, hset]; rfl
  · rw [hb8]
    show 0 &&& Block.maskAt 8 0 = Block.valueAt 8 0
    decide
  · rw [hset]
  · rw [hset]
  · rw [hr9]
  · rw [hb8]; rfl
  · rw [hr9, hset]; rfl
  · intro i hi
    rw [hr9, hset, hb8]
    exact cellAt_set_ne [{ v := true, tag := (Address.fields a1).tag },
                  { v := true, tag := (Address.fields a5).tag },
                  { v := true, tag := (Address.fields a3).tag },
                  { v := true, tag := (Address.fields a7).tag },
                  { v := true, tag := (Address.fields a2).tag },
                  { v := true, tag := (Address.fields a6).tag },
                  { v := true, tag := (Address.fields a4).tag },
                  { v := true, tag := (Address.fields a8).tag }] 104 0 0 i
      { v := true, tag := (Address.fields a9).tag } hi
  · rw [hold, hr9]; exact hnone
  · intro a ha
    apply set_ret_of_getByTag_none
    rw [ha, hold, hr9]; exact hnone

theorem capacity_eviction_witness :
    ([16384, 32768, 49152, 65536, 81920, 98304, 114688, 131072, 147456].map
      (fun a => (Address.fields a).tag)).Nodup ∧
    (Block.run 8 (Block.new 8)
      [16384, 32768, 49152, 65536, 81920, 98304, 114688, 131072, 147456]).1.map Prod.fst
      = List.replicate 9 MISS :=
  ⟨by decide,
    (capacity_eviction 16384 32768 49152 65536 81920 98304 114688 131072 147456
      (by decide)).1⟩

/-- C6 as stated fails on the code: the counters are `uint32_t`.  After `2^32 + 1` accesses
to address 0 (one miss, then `2^32` hits) `count[HIT]` has wrapped to 0, so the two counters
add up to 1 and not to the number of accesses. -/
theorem counter_overflow :
    (Cache.accessAll Cache.new (List.replicate (2 ^ 32 + 1) 0)).count.getD HIT 0 +
      (Cache.accessAll Cache.new (List.replicate (2 ^ 32 + 1) 0)).count.getD MISS 0
      ≠ (List.replicate (2 ^ 32 + 1) 0).length := by
  rw [accessAll_new_zero, List.length_replicate]
  simp [u32, HIT, MISS]

/-- C6 (counter conservation, amended to the range of the `uint32_t` counters): after any
sequence of `N < 2^32` calls of `Cache::access` on a fresh cache,
`count[HIT] + count[MISS] == N`, and each access of the sequence adds 1 to exactly the
counter named by the outcome of `Block::set` and leaves the other one unchanged. -/
theorem counter_conservation (as : List Nat) (hN : as.length < 2 ^ 32) :
    (Cache.accessAll Cache.new as).count.getD HIT 0
      + (Cache.accessAll Cache.new as).count.getD MISS 0 = as.length ∧
    ∀ (pre post : List Nat) (a : Nat), as = pre ++ a :: post →
      ((((Cache.accessAll Cache.new pre).block.getD (Address.fields a).index
            (Block.new NWAY)).set NWAY a).ret = HIT ∧
        ((Cache.accessAll Cache.new pre).access a).count.getD HIT 0
          = (Cache.accessAll Cache.new pre).count.getD HIT 0 + 1 ∧
        ((Cache.accessAll Cache.new pre).access a).count.getD MISS 0
          = (Cache.accessAll Cache.new pre).count.getD MISS 0) ∨
      ((((Cache.accessAll Cache.new pre).block.getD (Address.fields a).index
            (Block.new NWAY)).set NWAY a).ret = MISS ∧
        ((Cache.accessAll Cache.new pre).access a).count.getD MISS 0
          = (Cache.accessAll Cache.new pre).count.getD MISS 0 + 1 ∧
        ((Cache.accessAll Cache.new pre).access a).count.getD HIT 0
          = (Cache.accessAll Cache.new pre).count.getD HIT 0) := by
  constructor
  · obtain ⟨h2, m2, e, hsum⟩ := accessAll_count as Cache.new 0 0 new_count (by omega)
    rw [e]
    simpa [HIT, MISS] using hsum
  · intro pre post a hsplit
    have hlen : pre.length + 1 ≤ as.length := by
      rw [hsplit, List.length_append, List.length_cons]; omega
    obtain ⟨h2, m2, e, hsum⟩ := accessAll_count pre Cache.new 0 0 new_count (by omega)
    rcases access_count_cases (Cache.accessAll Cache.new pre) a h2 m2 e with ⟨hr, hc⟩ | ⟨hr, hc⟩
    · left
      rw [u32_of_lt (by omega)] at hc
      refine ⟨hr, ?_, ?_⟩
      · rw [hc, e]; rfl
      · rw [hc, e]; rfl
    · right
      rw [u32_of_lt (by omega)] at hc
      refine ⟨hr, ?_, ?_⟩
      · rw [hc, e]; rfl
      · rw [hc, e]; rfl

theorem counter_conservation_witness :
    [0, 0, 64, 0].length < 2 ^ 32 ∧
    (Cache.accessAll Cache.new [0, 0, 64, 0]).count.getD HIT 0
      + (Cache.accessAll Cache.new [0, 0, 64, 0]).count.getD MISS 0 = [0, 0, 64, 0].length :=
  ⟨by decide, (counter_conservation [0, 0, 64, 0] (by decide)).1⟩

/-- C7 (state range): a set is created with state 0, and after any finite sequence of
accesses to an 8-way set its state is below `2^7 = 128`. -/
theorem state_range (as : List Nat) :
    (Block.new 8).state = 0 ∧ (Block.run 8 (Block.new 8) as).2.state < 2 ^ 7 ∧
      (2 : Nat) ^ 7 = 128 :=
  ⟨rfl, run_state_lt as (Block.new 8) (by decide), by decide⟩

/-- C8 (miss update equals hit update): for both encodings, every `uint32_t` state `s`
and every way `w` with `(s & mask[w]) == value[w]`, the miss-path update `s ^ mask[w]`
equals the hit-path update `(s & ~mask[w]) | next_value[w]`. -/
theorem miss_update_eq_hit_update (nway : Nat) (hn : nway = 4 ∨ nway = 8) (s w : Nat)
    (hs : s < 2 ^ 32) (hw : w < nway)
    (hmatch : s &&& Block.maskAt nway w = Block.valueAt nway w) :
    Block.missUpdate nway s w = Block.hitUpdate nway s w ∧
    Block.missUpdate nway s w = s ^^^ Block.maskAt nway w ∧
    Block.hitUpdate nway s w
      = (s &&& not64 (Block.maskAt nway w)) ||| Block.nextValueAt nway w := by
  obtain ⟨hnv, hm, -, hnvlt⟩ := tables_next_value nway hn w hw
  have hpow : 2 ^ (nway - 1) ≤ 2 ^ 32 := by
    rcases hn with rfl | rfl <;> decide
  have hm32 : Block.maskAt nway w < 2 ^ 32 := lt_of_lt_of_le hm hpow
  have hnv32 : Block.nextValueAt nway w < 2 ^ 32 := lt_of_lt_of_le hnvlt hpow
  have h1 := missUpdate_eq nway s w hs hm32
  have h2 := hitUpdate_eq nway s w hs hnv32
  refine ⟨?_, h1, h2⟩
  rw [h1, h2, hnv, ← hmatch]
  exact xor_eq_clear_or s _ hs hm32

theorem miss_update_eq_hit_update_witness :
    (4 = 4 ∨ 4 = 8) ∧ 5 < 2 ^ 32 ∧ 3 < 4 ∧ 5 &&& Block.maskAt 4 3 = Block.valueAt 4 3 ∧
    Block.missUpdate 4 5 3 = Block.hitUpdate 4 5 3 ∧
    Block.missUpdate 4 5 3 = 5 ^^^ Block.maskAt 4 3 ∧
    Block.hitUpdate 4 5 3 = (5 &&& not64 (Block.maskAt 4 3)) ||| Block.nextValueAt 4 3 :=
  ⟨Or.inl rfl, by decide, by decide, by decide,
    miss_update_eq_hit_update 4 (Or.inl rfl) 5 3 (by decide) (by decide) (by decide)⟩

/-- C9 as stated fails on the code: after the first miss (way 0, state `0b1101000`) an
access with a different tag is a miss, but the way it selects is not way 1. -/
theorem second_access_not_way_one :
    (Address.fields 32768).tag ≠ (Address.fields 16384).tag ∧
    ((Block.new 8).set 8 16384).way = 0 ∧
    ((Block.new 8).set 8 16384).block.state = 0b1101000 ∧
    ¬ ((((Block.new 8).set 8 16384).block.set 8 32768).ret = MISS ∧
        (((Block.new 8).set 8 16384).block.set 8 32768).way = 1) := by
  decide

/-- C9 (worked example, second access, amended): in a fresh 8-way set that has just taken
its first miss (way 0, new state `0b1101000`), an access with a different tag is a miss
selecting way 4, with new state `0b0111010`. -/
theorem second_access (a1 a2 : Nat)
    (hne : (Address.fields a1).tag ≠ (Address.fields a2).tag) :
    ((Block.new 8).set 8 a1).ret = MISS ∧ ((Block.new 8).set 8 a1).way = 0 ∧
    ((Block.new 8).set 8 a1).block.state = 0b1101000 ∧
    (((Block.new 8).set 8 a1).block.set 8 a2).ret = MISS ∧
    (((Block.new 8).set 8 a1).block.set 8 a2).way = 4 ∧
    (((Block.new 8).set 8 a1).block.set 8 a2).block.state = 0b0111010 := by
  have h1 := new8_set a1
  have h2 : Block.set 8
      { cell := { v := true, tag := (Address.fields a1).tag } :: List.replicate 7 Cell.init,
        state := 104 } a2 =
      { ret := MISS, way := 4,
        block := { cell := ({ v := true, tag := (Address.fields a1).tag } ::
                     List.replicate 7 Cell.init).set 4
                     { v := true, tag := (Address.fields a2).tag },
                   state := 58 } } := by
    refine set_miss_explicit _ _ 104 a2 4 58 ?_ (by decide) (by decide) rfl
    intro i hi
    interval_cases i <;> simp [Block.cellAt, Cell.init, *]
  simp only [h1, h2]
  decide

theorem second_access_witness :
    (Address.fields 16384).tag ≠ (Address.fields 32768).tag ∧
    ((Block.new 8).set 8 16384).ret = MISS ∧ ((Block.new 8).set 8 16384).way = 0 ∧
    ((Block.new 8).set 8 16384).block.state = 0b1101000 ∧
    (((Block.new 8).set 8 16384).block.set 8 32768).ret = MISS ∧
    (((Block.new 8).set 8 16384).block.set 8 32768).way = 4 ∧
    (((Block.new 8).set 8 16384).block.set 8 32768).block.state = 0b0111010 :=
  ⟨by decide, second_access 16384 32768 (by decide)⟩

/-- C10 (worked example, first access): for every address, the first access to a freshly
constructed 8-way set (state 0, all ways invalid) returns `MISS`, fills way 0 and changes
the state from 0 to `0b1101000 = 104`. -/
theorem first_access (a : Nat) :
    (Block.new 8).state = 0 ∧ (∀ i, i < 8 → ((Block.new 8).cellAt i).v = false) ∧
    ((Block.new 8).set 8 a).ret = MISS ∧ ((Block.new 8).set 8 a).way = 0 ∧
    ((Block.new 8).set 8 a).block.cellAt 0 = { v := true, tag := (Address.fields a).tag } ∧
    (∀ i, i ≠ 0 → ((Block.new 8).set 8 a).block.cellAt i = (Block.new 8).cellAt i) ∧
    ((Block.new 8).set 8 a).block.state = 0b1101000 ∧ 0b1101000 = 104 := by
  rw [new8_set a]
  refine ⟨rfl, by decide, rfl, rfl, rfl, ?_, rfl, rfl⟩
  intro i hi
  exact cellAt_set_ne (List.replicate 8 Cell.init) 104 0 0 i
    { v := true, tag := (Address.fields a).tag } hi

/-- C11 (cross-set independence): `Cache::access(a)` leaves every set other than
`block[index(a)]` unchanged, so after any sequence of accesses the set at index `i` is the
result of running on it the accesses with index `i` alone, and the outcome of every access
is the one it has when the accesses to other sets are left out. -/
theorem cross_set_independence (c : Cache) (hlen : c.block.length = NLINE) :
    (∀ a j, j ≠ (Address.fields a).index →
      (c.access a).block.getD j (Block.new NWAY) = c.block.getD j (Block.new NWAY)) ∧
    (∀ a, (c.access a).block.length = NLINE) ∧
    (∀ (as : List Nat) (i : Nat), i < NLINE →
      (c.accessAll as).block.getD i (Block.new NWAY)
        = (Block.run NWAY (c.block.getD i (Block.new NWAY))
            (as.filter (fun a => (Address.fields a).index == i))).2) ∧
    (∀ (pre : List Nat) (a : Nat),
      ((c.accessAll pre).block.getD (Address.fields a).index (Block.new NWAY)).set NWAY a
        = ((Block.run NWAY (c.block.getD (Address.fields a).index (Block.new NWAY))
            (pre.filter (fun x => (Address.fields x).index == (Address.fields a).index))).2).set
            NWAY a) := by
  refine ⟨fun a j h => access_block_ne c a j h, ?_, ?_, ?_⟩
  · intro a; rw [access_block_length, hlen]
  · intro as i hi
    exact accessAll_block as c i (by rw [hlen]; exact hi)
  · intro pre a
    rw [accessAll_block pre c _ (by rw [hlen]; exact index_lt a)]

theorem cross_set_independence_witness :
    Cache.new.block.length = NLINE ∧
    (∀ a j, j ≠ (Address.fields a).index →
      (Cache.new.access a).block.getD j (Block.new NWAY)
        = Cache.new.block.getD j (Block.new NWAY)) :=
  ⟨List.length_replicate _ _,
    (cross_set_independence Cache.new (List.length_replicate _ _)).1⟩

/-- C12 (lossless address decoding): for every 64-bit address the four bit fields
(widths 2 + 4 + 8 + 50 = 64) rebuild the address, `index < 256 = NLINE`, `tag < 2^50`, and
two addresses with the same four fields are equal. -/
theorem address_decoding_lossless (a : Nat) (ha : a < 2 ^ 64) :
    (Address.fields a).wd_idx = a % 4 ∧ (Address.fields a).offset = a / 4 % 16 ∧
    (Address.fields a).index = a / 64 % 256 ∧ (Address.fields a).tag = a / 16384 ∧
    a = (Address.fields a).wd_idx + 4 * (Address.fields a).offset
          + 64 * (Address.fields a).index + 16384 * (Address.fields a).tag ∧
    (Address.fields a).wd_idx < 2 ^ 2 ∧ (Address.fields a).offset < 2 ^ 4 ∧
    (Address.fields a).index < 2 ^ 8 ∧ (Address.fields a).index < NLINE ∧
    (Address.fields a).tag < 2 ^ 50 ∧ 2 + 4 + 8 + 50 = 64 ∧
    ∀ b, b < 2 ^ 64 → Address.fields b = Address.fields a → b = a := by
  have h50 : (2 : Nat) ^ 50 = 1125899906842624 := by norm_num
  have h64 : (2 : Nat) ^ 64 = 18446744073709551616 := by norm_num
  rw [h64] at ha
  have htag : a / 16384 % 2 ^ 50 = a / 16384 := by
    rw [h50]; omega
  refine ⟨rfl, rfl, rfl, htag, ?_, ?_, ?_, ?_, ?_, ?_, rfl, ?_⟩
  · simp only [Address.fields, htag]; omega
  · simp only [Address.fields]; omega
  · simp only [Address.fields]; omega
  · simp only [Address.fields]; omega
  · exact index_lt a
  · simp only [Address.fields, htag]; rw [h50]; omega
  · intro b hb hbe
    rw [h64] at hb
    have e1 : b % 4 = a % 4 := congrArg AddressField.wd_idx hbe
    have e2 : b / 4 % 16 = a / 4 % 16 := congrArg AddressField.offset hbe
    have e3 : b / 64 % 256 = a / 64 % 256 := congrArg AddressField.index hbe
    have e4 : b / 16384 % 2 ^ 50 = a / 16384 % 2 ^ 50 := congrArg AddressField.tag hbe
    rw [h50] at e4
    omega

theorem address_decoding_lossless_witness :
    0xFACE00A000000000 < 2 ^ 64 ∧
    0xFACE00A000000000 = (Address.fields 0xFACE00A000000000).wd_idx
      + 4 * (Address.fields 0xFACE00A000000000).offset
      + 64 * (Address.fields 0xFACE00A000000000).index
      + 16384 * (Address.fields 0xFACE00A000000000).tag :=
  ⟨by decide, (address_decoding_lossless 0xFACE00A000000000 (by decide)).2.2.2.2.1⟩

/-- C13 (configuration error must fail fast) does not hold on the code: for `NWAY = 16`
the constructor prints its message and returns a set with 16 invalid ways and state 0,
for which none of the three tables exists. -/
theorem unsupported_nway_constructs :
    Block.newMessage 16 = some 16 ∧
    Block.new 16 = { cell := List.replicate 16 Cell.init, state := 0 } ∧
    Block.mask 16 = [] ∧ Block.value 16 = [] ∧ Block.next_value 16 = [] :=
  ⟨rfl, rfl, rfl, rfl, rfl⟩

/-- C14 (documented 4-way truth table): with the state read as a 3-bit binary number,
states `00x`, `01x`, `1x0`, `1x1` select line 0, 1, 2, 3 for replacement, and a reference
to line 0, 1, 2, 3 rewrites the state to `11_`, `10_`, `0_1`, `0_0`, the `_` bit unchanged
(the same on the miss path, where the referenced line is the selected one). -/
theorem four_way_truth_table (s : Nat) (hs : s < 8) :
    (Block.findLRU 4 s = some 0 ↔ s.testBit 2 = false ∧ s.testBit 1 = false) ∧
    (Block.findLRU 4 s = some 1 ↔ s.testBit 2 = false ∧ s.testBit 1 = true) ∧
    (Block.findLRU 4 s = some 2 ↔ s.testBit 2 = true ∧ s.testBit 0 = false) ∧
    (Block.findLRU 4 s = some 3 ↔ s.testBit 2 = true ∧ s.testBit 0 = true) ∧
    ((Block.hitUpdate 4 s 0).testBit 2 = true ∧ (Block.hitUpdate 4 s 0).testBit 1 = true ∧
      (Block.hitUpdate 4 s 0).testBit 0 = s.testBit 0 ∧ Block.hitUpdate 4 s 0 < 8) ∧
    ((Block.hitUpdate 4 s 1).testBit 2 = true ∧ (Block.hitUpdate 4 s 1).testBit 1 = false ∧
      (Block.hitUpdate 4 s 1).testBit 0 = s.testBit 0 ∧ Block.hitUpdate 4 s 1 < 8) ∧
    ((Block.hitUpdate 4 s 2).testBit 2 = false ∧
      (Block.hitUpdate 4 s 2).testBit 1 = s.testBit 1 ∧
      (Block.hitUpdate 4 s 2).testBit 0 = true ∧ Block.hitUpdate 4 s 2 < 8) ∧
    ((Block.hitUpdate 4 s 3).testBit 2 = false ∧
      (Block.hitUpdate 4 s 3).testBit 1 = s.testBit 1 ∧
      (Block.hitUpdate 4 s 3).testBit 0 = false ∧ Block.hitUpdate 4 s 3 < 8) ∧
    (∀ w, w < 4 → Block.findLRU 4 s = some w →
      Block.missUpdate 4 s w = Block.hitUpdate 4 s w) := by
  interval_cases s <;> decide

theorem four_way_truth_table_witness :
    0b011 < 8 ∧
    (Block.findLRU 4 0b011 = some 1 ↔
      (0b011 : Nat).testBit 2 = false ∧ (0b011 : Nat).testBit 1 = true) :=
  ⟨by decide, (four_way_truth_table 0b011 (by decide)).2.1⟩

/-- C17 (next value points away): for both encodings and every way `w`, `value[w]` and
`next_value[w]` have no bit outside `mask[w]`, `mask[w]` has exactly `log2(W)` bits set,
and `next_value[w] == mask[w] ^ value[w]`: every path bit is written with the opposite of
the value that selects `w`. -/
theorem next_value_points_away (nway : Nat) (hn : nway = 4 ∨ nway = 8) (w : Nat)
    (hw : w < nway) :
    Block.valueAt nway w &&& Block.maskAt nway w = Block.valueAt nway w ∧
    Block.nextValueAt nway w &&& Block.maskAt nway w = Block.nextValueAt nway w ∧
    2 ^ ((List.range 64).countP (fun i => (Block.maskAt nway w).testBit i)) = nway ∧
    Block.nextValueAt nway w = Block.maskAt nway w ^^^ Block.valueAt nway w ∧
    (∀ i, (Block.maskAt nway w).testBit i = true →
      (Block.nextValueAt nway w).testBit i = !(Block.valueAt nway w).testBit i) := by
  have hx := (tables_next_value nway hn w hw).1
  refine ⟨?_, ?_, ?_, hx, ?_⟩
  · rcases hn with rfl | rfl <;> interval_cases w <;> decide
  · rcases hn with rfl | rfl <;> interval_cases w <;> decide
  · rcases hn with rfl | rfl <;> interval_cases w <;> decide
  · intro i hi
    rw [hx, Nat.testBit_xor, hi]
    cases (Block.valueAt nway w).testBit i <;> rfl

theorem next_value_points_away_witness :
    (8 = 4 ∨ 8 = 8) ∧ 5 < 8 ∧
    Block.nextValueAt 8 5 = Block.maskAt 8 5 ^^^ Block.valueAt 8 5 :=
  ⟨Or.inr rfl, by decide, (next_value_points_away 8 (Or.inr rfl) 5 (by decide)).2.2.2.1⟩

/-- C18 (tag uniqueness): in every set state reachable from the freshly constructed set,
no two valid ways hold the same tag, so the way reported by a hit is the only valid way
holding the tag, and a valid way stays valid after every later access. -/
theorem tag_uniqueness (as : List Nat) :
    (∀ i j, i < 8 → j < 8 → ((Block.run 8 (Block.new 8) as).2.cellAt i).v = true →
      ((Block.run 8 (Block.new 8) as).2.cellAt j).v = true →
      ((Block.run 8 (Block.new 8) as).2.cellAt i).tag
        = ((Block.run 8 (Block.new 8) as).2.cellAt j).tag → i = j) ∧
    (∀ a i, ((Block.run 8 (Block.new 8) as).2.set 8 a).ret = HIT → i < 8 →
      ((Block.run 8 (Block.new 8) as).2.cellAt i).v = true →
      ((Block.run 8 (Block.new 8) as).2.cellAt i).tag = (Address.fields a).tag →
      i = ((Block.run 8 (Block.new 8) as).2.set 8 a).way) ∧
    (∀ (bs : List Nat) (i : Nat), ((Block.run 8 (Block.new 8) as).2.cellAt i).v = true →
      ((Block.run 8 (Block.new 8) (as ++ bs)).2.cellAt i).v = true) := by
  have hu := run_unique as (Block.new 8) rfl
    (fun i j _ _ hvi _ _ => by rw [new8_invalid i] at hvi; exact absurd hvi (by decide))
  refine ⟨hu, ?_, ?_⟩
  · intro a i hret hi hv ht
    rcases set_cases (Block.run 8 (Block.new 8) as).2 a with ⟨h, hg, hh, e⟩ | ⟨w, -, -, -, e⟩
    · rw [e]
      obtain ⟨-, hv2, ht2⟩ := getByTag_some_elim 8 _ _ h hg
      exact hu i h hi hh hv hv2 (by rw [ht, ht2])
    · rw [e] at hret
      have hne : MISS ≠ HIT := by decide
      exact absurd hret hne
  · intro bs i hv
    rw [run_append_snd]
    exact run_valid_mono bs _ i hv

/-- C19 (recently used tags are protected): in every 8-way set reachable from the fresh
set, after an access to tag `t` (hit or miss, at way `w`) the way `w` is not the one selected
by the very next miss, it still holds `t` after each of the next three accesses, whatever
their addresses, and a fifth access with tag `t` returns `HIT`. -/
theorem recently_used_protected (pre : List Nat) (t u1 u2 u3 t2 : Nat)
    (hsame : (Address.fields t2).tag = (Address.fields t).tag) :
    let b := (Block.run 8 (Block.new 8) pre).2
    let w := (b.set 8 t).way
    let b1 := (b.set 8 t).block
    let b2 := (b1.set 8 u1).block
    let b3 := (b2.set 8 u2).block
    let b4 := (b3.set 8 u3).block
    w < 8 ∧ b1.cellAt w = { v := true, tag := (Address.fields t).tag } ∧
    Block.findLRU 8 b1.state ≠ some w ∧
    b2.cellAt w = { v := true, tag := (Address.fields t).tag } ∧
    b3.cellAt w = { v := true, tag := (Address.fields t).tag } ∧
    b4.cellAt w = { v := true, tag := (Address.fields t).tag } ∧
    (b4.set 8 t2).ret = HIT ∧
    (Block.run 8 b [t, u1, u2, u3, t2]).1.map Prod.fst
      = [(b.set 8 t).ret, (b1.set 8 u1).ret, (b2.set 8 u2).ret, (b3.set 8 u3).ret, HIT] := by
  intro b w b1 b2 b3 b4
  have hb_len : b.cell.length = 8 := run_length pre (Block.new 8)
  have hb_s : b.state < 128 := run_state_lt pre (Block.new 8) (by decide)
  have eb1 : b1 = (b.set 8 t).block := rfl
  have ew : w = (b.set 8 t).way := rfl
  have eb2 : b2 = (b1.set 8 u1).block := rfl
  have eb3 : b3 = (b2.set 8 u2).block := rfl
  have eb4 : b4 = (b3.set 8 u3).block := rfl
  clear_value b
  obtain ⟨hw, hc1, hk1⟩ := set_protects b t hb_len hb_s
  rw [← eb1, ← ew] at hc1 hk1
  rw [← ew] at hw
  have hs1 : b1.state < 128 := by rw [eb1]; exact set_state_lt b t hb_s
  clear_value b1 w
  obtain ⟨hc2, hk2⟩ := set_keeps_protected b1 u1 w _ hs1 hw hc1 (by omega)
  rw [← eb2] at hc2 hk2
  have hs2 : b2.state < 128 := by rw [eb2]; exact set_state_lt b1 u1 hs1
  clear_value b2
  obtain ⟨hc3, hk3⟩ := set_keeps_protected b2 u2 w _ hs2 hw hc2 (by omega)
  rw [← eb3] at hc3 hk3
  have hs3 : b3.state < 128 := by rw [eb3]; exact set_state_lt b2 u2 hs2
  clear_value b3
  obtain ⟨hc4, -⟩ := set_keeps_protected b3 u3 w _ hs3 hw hc3 (by omega)
  rw [← eb4] at hc4
  clear_value b4
  have hhit : (b4.set 8 t2).ret = HIT := by
    obtain ⟨h, hg⟩ := getByTag_ne_none 8 b4 (Address.fields t2).tag w hw
      (by rw [hc4]) (by rw [hc4, hsame])
    rw [set_of_hit 8 b4 t2 h hg]
  refine ⟨hw, hc1, ?_, hc2, hc3, hc4, hhit, ?_⟩
  · intro hf
    have := toward_of_findLRU b1.state hs1 w hw hf
    omega
  · simp only [Block.run, List.map_cons, List.map_nil, ← eb1, ← eb2, ← eb3, ← eb4, hhit]

theorem recently_used_protected_witness :
    (Address.fields 16388).tag = (Address.fields 16384).tag ∧
    ((((((Block.new 8).set 8 16384).block.set 8 32768).block.set 8 49152).block.set 8
      65536).block.set 8 16388).ret = HIT :=
  ⟨by decide,
    (recently_used_protected [] 16384 32768 49152 65536 16388 (by decide)).2.2.2.2.2.2.1⟩

/-- C20 (miss cycle of period 8): in an 8-way set with state `s < 128`, eight consecutive
accesses that all return `MISS` overwrite each of the 8 ways exactly once and leave the
state equal to `s`; from `s = 0` the ways are chosen in the order 0, 4, 2, 6, 1, 5, 3, 7. -/
theorem miss_cycle (b : Block) (as : List Nat) (hlen : b.cell.length = 8)
    (hs : b.state < 128) (hn : as.length = 8)
    (hmiss : ∀ r, r ∈ (Block.run 8 b as).1 → r.1 = MISS) :
    (∀ w, w < 8 → ((Block.run 8 b as).1.map Prod.snd).count w = 1) ∧
    ((Block.run 8 b as).1.map Prod.snd).length = 8 ∧
    (Block.run 8 b as).2.state = b.state ∧
    (Block.run 8 b as).2.cell.length = 8 ∧
    (b.state = 0 → (Block.run 8 b as).1.map Prod.snd = [0, 4, 2, 6, 1, 5, 3, 7]) := by
  obtain ⟨h1, h2⟩ := run_all_miss as b hmiss
  rw [hn] at h1 h2
  obtain ⟨hc, hl, hf⟩ := missChain8 b.state hs
  refine ⟨?_, ?_, ?_, ?_, ?_⟩
  · rw [h1]; exact hc
  · rw [h1]; exact hl
  · rw [h2]; exact hf
  · rw [run_length, hlen]
  · intro h0
    rw [h1, h0, missChain8_zero]

theorem miss_cycle_witness :
    (Block.new 8).cell.length = 8 ∧ (Block.new 8).state < 128 ∧
    [16384, 32768, 49152, 65536, 81920, 98304, 114688, 131072].length = 8 ∧
    (∀ r, r ∈ (Block.run 8 (Block.new 8)
      [16384, 32768, 49152, 65536, 81920, 98304, 114688, 131072]).1 → r.1 = MISS) ∧
    (Block.run 8 (Block.new 8)
      [16384, 32768, 49152, 65536, 81920, 98304, 114688, 131072]).2.state
      = (Block.new 8).state :=
  ⟨rfl, by decide, rfl, by decide,
    (miss_cycle (Block.new 8) [16384, 32768, 49152, 65536, 81920, 98304, 114688, 131072]
      rfl (by decide) rfl (by decide)).2.2.1⟩

/-- C16 (filling an empty set): eight accesses with pairwise distinct tags to a freshly
constructed 8-way set all return `MISS`; the ways they choose are pairwise distinct, each
was still invalid just before its access and holds the accessed tag just after it;
afterwards all 8 ways are valid and hold exactly the 8 tags. -/
theorem filling_empty_set (a1 a2 a3 a4 a5 a6 a7 a8 : Nat)
    (hd : ([a1, a2, a3, a4, a5, a6, a7, a8].map (fun a => (Address.fields a).tag)).Nodup) :
    (Block.run 8 (Block.new 8) [a1, a2, a3, a4, a5, a6, a7, a8]).1.map Prod.fst
      = List.replicate 8 MISS ∧
    ((Block.run 8 (Block.new 8) [a1, a2, a3, a4, a5, a6, a7, a8]).1.map Prod.snd).Nodup ∧
    (∀ k, k < 8 →
      ((Block.run 8 (Block.new 8) ([a1, a2, a3, a4, a5, a6, a7, a8].take k)).2.cellAt
        (((Block.run 8 (Block.new 8) [a1, a2, a3, a4, a5, a6, a7, a8]).1.map
          Prod.snd).getD k 0)).v = false) ∧
    (∀ k, k < 8 →
      (Block.run 8 (Block.new 8) ([a1, a2, a3, a4, a5, a6, a7, a8].take (k + 1))).2.cellAt
        (((Block.run 8 (Block.new 8) [a1, a2, a3, a4, a5, a6, a7, a8]).1.map
          Prod.snd).getD k 0)
        = { v := true, tag := (Address.fields ([a1, a2, a3, a4, a5, a6, a7, a8].getD k 0)).tag }) ∧
    (∀ i, i < 8 →
      ((Block.run 8 (Block.new 8) [a1, a2, a3, a4, a5, a6, a7, a8]).2.cellAt i).v = true) ∧
    (Block.run 8 (Block.new 8) [a1, a2, a3, a4, a5, a6, a7, a8]).2.cell =
      [{ v := true, tag := (Address.fields a1).tag },
       { v := true, tag := (Address.fields a5).tag },
       { v := true, tag := (Address.fields a3).tag },
       { v := true, tag := (Address.fields a7).tag },
       { v := true, tag := (Address.fields a2).tag },
       { v := true, tag := (Address.fields a6).tag },
       { v := true, tag := (Address.fields a4).tag },
       { v := true, tag := (Address.fields a8).tag }] := by
  have h8 := fill8 a1 a2 a3 a4 a5 a6 a7 a8 hd
  obtain ⟨p1, p2, p3, p4, p5, p6, p7⟩ := fill_prefixes a1 a2 a3 a4 a5 a6 a7 a8 hd
  rw [h8]
  refine ⟨rfl, ?_, ?_, ?_, ?_, rfl⟩
  · show ([0, 4, 2, 6, 1, 5, 3, 7] : List Nat).Nodup
    decide
  · intro k hk
    interval_cases k
    · rfl
    · show ((Block.run 8 (Block.new 8) [a1]).2.cellAt 4).v = false
      rw [p1]; rfl
    · show ((Block.run 8 (Block.new 8) [a1, a2]).2.cellAt 2).v = false
      rw [p2]; rfl
    · show ((Block.run 8 (Block.new 8) [a1, a2, a3]).2.cellAt 6).v = false
      rw [p3]; rfl
    · show ((Block.run 8 (Block.new 8) [a1, a2, a3, a4]).2.cellAt 1).v = false
      rw [p4]; rfl
    · show ((Block.run 8 (Block.new 8) [a1, a2, a3, a4, a5]).2.cellAt 5).v = false
      rw [p5]; rfl
    · show ((Block.run 8 (Block.new 8) [a1, a2, a3, a4, a5, a6]).2.cellAt 3).v = false
      rw [p6]; rfl
    · show ((Block.run 8 (Block.new 8) [a1, a2, a3, a4, a5, a6, a7]).2.cellAt 7).v = false
      rw [p7]; rfl
  · intro k hk
    interval_cases k
    · show (Block.run 8 (Block.new 8) [a1]).2.cellAt 0 = _
      rw [p1]; rfl
    · show (Block.run 8 (Block.new 8) [a1, a2]).2.cellAt 4 = _
      rw [p2]; rfl
    · show (Block.run 8 (Block.new 8) [a1, a2, a3]).2.cellAt 2 = _
      rw [p3]; rfl
    · show (Block.run 8 (Block.new 8) [a1, a2, a3, a4]).2.cellAt 6 = _
      rw [p4]; rfl
    · show (Block.run 8 (Block.new 8) [a1, a2, a3, a4, a5]).2.cellAt 1 = _
      rw [p5]; rfl
    · show (Block.run 8 (Block.new 8) [a1, a2, a3, a4, a5, a6]).2.cellAt 5 = _
      rw [p6]; rfl
    · show (Block.run 8 (Block.new 8) [a1, a2, a3, a4, a5, a6, a7]).2.cellAt 3 = _
      rw [p7]; rfl
    · show (Block.run 8 (Block.new 8) [a1, a2, a3, a4, a5, a6, a7, a8]).2.cellAt 7 = _
      rw [h8]; rfl
  · intro i hi
    interval_cases i <;> rfl

theorem filling_empty_set_witness :
    ([16384, 32768, 49152, 65536, 81920, 98304, 114688, 131072].map
      (fun a => (Address.fields a).tag)).Nodup ∧
    (Block.run 8 (Block.new 8)
      [16384, 32768, 49152, 65536, 81920, 98304, 114688, 131072]).1.map Prod.fst
      = List.replicate 8 MISS :=
  ⟨by decide,
    (filling_empty_set 16384 32768 49152 65536 81920 98304 114688 131072 (by decide)).1⟩

/-- C15 (invalid ways are not preferred): after the accesses A, B, A, C, A, D, A, E, A
(pairwise distinct tags) to a fresh 8-way set, the access F is a miss that overwrites way 4,
which is valid and holds B (B is then no longer found), while ways 1, 2 and 3 are still
invalid before and after it. -/
theorem invalid_ways_not_preferred (aA aB aC aD aE aF : Nat)
    (hd : ([aA, aB, aC, aD, aE, aF].map (fun a => (Address.fields a).tag)).Nodup) :
    (Block.run 8 (Block.new 8) [aA, aB, aA, aC, aA, aD, aA, aE, aA]).2.cellAt 4
      = { v := true, tag := (Address.fields aB).tag } ∧
    ((Block.run 8 (Block.new 8) [aA, aB, aA, aC, aA, aD, aA, aE, aA]).2.cellAt 1).v = false ∧
    ((Block.run 8 (Block.new 8) [aA, aB, aA, aC, aA, aD, aA, aE, aA]).2.cellAt 2).v = false ∧
    ((Block.run 8 (Block.new 8) [aA, aB, aA, aC, aA, aD, aA, aE, aA]).2.cellAt 3).v = false ∧
    ((Block.run 8 (Block.new 8) [aA, aB, aA, aC, aA, aD, aA, aE, aA]).2.set 8 aF).ret = MISS ∧
    ((Block.run 8 (Block.new 8) [aA, aB, aA, aC, aA, aD, aA, aE, aA]).2.set 8 aF).way = 4 ∧
    ((Block.run 8 (Block.new 8) [aA, aB, aA, aC, aA, aD, aA, aE, aA]).2.set 8 aF).block.cellAt 4
      = { v := true, tag := (Address.fields aF).tag } ∧
    (((Block.run 8 (Block.new 8) [aA, aB, aA, aC, aA, aD, aA, aE, aA]).2.set 8 aF).block.cellAt 1).v = false ∧
    (((Block.run 8 (Block.new 8) [aA, aB, aA, aC, aA, aD, aA, aE, aA]).2.set 8 aF).block.set 8 aB).ret = MISS := by
  have h9 := interleaved9 aA aB aC aD aE aF hd
  simp only [List.map_cons, List.map_nil, List.nodup_cons, List.mem_cons, List.mem_singleton,
    List.not_mem_nil, not_or, List.nodup_nil, or_false, and_true, not_false_eq_true] at hd
  obtain ⟨⟨hAB, hAC, hAD, hAE, hAF⟩, ⟨hBC, hBD, hBE, hBF⟩, ⟨hCD, hCE, hCF⟩, ⟨hDE, hDF⟩,
    hEF⟩ := hd
  have hset : Block.set 8 (Block.run 8 (Block.new 8) [aA, aB, aA, aC, aA, aD, aA, aE, aA]).2 aF =
      { ret := MISS, way := 4,
        block := { cell := [{ v := true, tag := (Address.fields aA).tag },
                            Cell.init, Cell.init, Cell.init,
                            { v := true, tag := (Address.fields aF).tag },
                            { v := true, tag := (Address.fields aD).tag },
                            { v := true, tag := (Address.fields aC).tag },
                            { v := true, tag := (Address.fields aE).tag }],
                   state := 58 } } := by
    rw [h9]
    refine set_miss_explicit _ _ 104 aF 4 58 ?_ (by decide) (by decide) rfl
    intro i hi; interval_cases i <;> simp [Block.cellAt, Cell.init, *]
  have hB : Block.getByTag 8 ((Block.run 8 (Block.new 8) [aA, aB, aA, aC, aA, aD, aA, aE, aA]).2.set 8 aF).block
      (Address.fields aB).tag = none := by
    rw [hset]
    apply getByTag_eq_none
    intro i hi
    have hBA := Ne.symm hAB
    have hFB := Ne.symm hBF
    have hDB := Ne.symm hBD
    have hCB := Ne.symm hBC
    have hEB := Ne.symm hBE
    interval_cases i <;> simp [Block.cellAt, Cell.init, *]
  refine ⟨?_, ?_, ?_, ?_, ?_, ?_, ?_, ?_, set_ret_of_getByTag_none 8 _ aB hB⟩
  · rw [h9]; rfl
  · rw [h9]; rfl
  · rw [h9]; rfl
  · rw [h9]; rfl
  · rw [hset]
  · rw [hset]
  · rw [hset]; rfl
  · rw [hset]; rfl

theorem invalid_ways_not_preferred_witness :
    ([16384, 32768, 49152, 65536, 81920, 98304].map
      (fun a => (Address.fields a).tag)).Nodup ∧
    ((Block.run 8 (Block.new 8)
      [16384, 32768, 16384, 49152, 16384, 65536, 16384, 81920, 16384]).2.set 8 98304).way
      = 4 :=
  ⟨by decide,
    (invalid_ways_not_preferred 16384 32768 49152 65536 81920 98304
      (by decide)).2.2.2.2.2.1⟩

end TreePLRU
